import Mathlib

/-!
Verification development for the torrent-rs DHT node (BEP 5 / BEP 32).

This file shallowly embeds the parts of the Rust source that the checked
claims are about, and proves (or refutes) each claim over the embedding:

* src/src/metainfo/piece.rs      - HashPiece (20-byte id), xor, count_ones
* src/src/metainfo/address.rs    - PeerAddress and its compact wire form
* src/src/krpc/node.rs           - Node, compact node lists
* src/src/krpc/message.rs        - KrpcMessage / KrpcQuery / KrpcResponse
* src/src/krpc/error.rs          - KrpcError
* src/src/bencode/ser.rs, de.rs  - bencode encode / decode for KrpcMessage
* src/src/dht/routing_table.rs   - Bucket, RoutingTable, insert, closest
* src/src/dht/token.rs           - TokenManager, create_token, valid_token
* src/src/dht/transaction.rs     - TransactionManager, refresh
* src/src/dht/mod.rs             - get_peers / announce_peer handlers and
                                   the lookup-transaction depth discipline

Conventions: Rust byte values and machine integers are modelled as Nat
(with explicit bounds where overflow or wrapping matters), Rust strings
are modelled by their UTF-8 byte sequences (List Nat), Instant and
SystemTime are modelled as Nat (Instant subtraction saturates at zero,
matching the saturating semantics of the standard library), fallible or
panicking code returns Option / Except.
-/

namespace TorrentRs

/-- A byte string (the UTF-8 bytes of a Rust String, or a raw Vec of u8). -/
abbrev ByteStr := List Nat

/-- Fuel-bounded helper for popCount; the fuel only serves to make the
recursion structural (popCount supplies enough of it for any input). -/
def popCountAux : Nat → Nat → Nat
  | 0, _ => 0
  | fuel + 1, n => if n = 0 then 0 else n % 2 + popCountAux fuel (n / 2)

/-- Number of one bits in the binary representation of a natural number
(models u8::count_ones applied to a byte value). -/
def popCount (n : Nat) : Nat :=
  popCountAux n n

/-- src/src/metainfo/piece.rs: HashPiece([u8; ID_LEN]), a 20-byte SHA-1
sized identifier.  The fixed-size array is modelled as a list of byte
values; well-formedness (length 20, bytes below 256) is the separate
predicate HashPiece.wf. -/
structure HashPiece where
  bytes : ByteStr
deriving DecidableEq, Repr

/-- src/src/metainfo/piece.rs: ID_LEN. -/
def ID_LEN : Nat := 20

/-- Representation invariant of a HashPiece value: 20 bytes, each below 256. -/
def HashPiece.wf (h : HashPiece) : Prop :=
  h.bytes.length = ID_LEN ∧ ∀ b ∈ h.bytes, b < 256

instance (h : HashPiece) : Decidable h.wf := by
  unfold HashPiece.wf; infer_instance

/-- src/src/metainfo/piece.rs: HashPiece::count_ones, the fold of
u8::count_ones over the 20 bytes. -/
def HashPiece.count_ones (h : HashPiece) : Nat :=
  h.bytes.foldl (fun res b => popCount b + res) 0

/-- src/src/metainfo/piece.rs: the BitXor impl for HashPiece, byte-wise xor. -/
def HashPiece.xor (a b : HashPiece) : HashPiece :=
  ⟨List.zipWith Nat.xor a.bytes b.bytes⟩

/-- src/src/metainfo/address.rs: the IP half of a peer address; octet lists
of length 4 (v4) or 16 (v6). -/
inductive IpAddr where
  | v4 : List Nat → IpAddr
  | v6 : List Nat → IpAddr
deriving DecidableEq, Repr

/-- src/src/metainfo/address.rs: PeerAddress(SocketAddr). -/
structure PeerAddress where
  ip : IpAddr
  port : Nat
deriving DecidableEq, Repr

/-- SocketAddr::is_ipv4. -/
def PeerAddress.is_ipv4 (a : PeerAddress) : Bool :=
  match a.ip with
  | .v4 _ => true
  | .v6 _ => false

/-- SocketAddr::is_ipv6. -/
def PeerAddress.is_ipv6 (a : PeerAddress) : Bool :=
  match a.ip with
  | .v4 _ => false
  | .v6 _ => true

/-- src/src/krpc/node.rs: Node, a (NodeId, peer address) pair. -/
structure Node where
  id : HashPiece
  peer_address : PeerAddress
deriving DecidableEq, Repr

/-- u16::to_be_bytes: the two big-endian bytes of a port value. -/
def portBeBytes (p : Nat) : ByteStr := [p / 256 % 256, p % 256]

/-- src/src/metainfo/address.rs: the Into Vec of u8 impl for PeerAddress,
octets in network order followed by the big-endian port. -/
def compactPeerAddress (a : PeerAddress) : ByteStr :=
  match a.ip with
  | .v4 o => o ++ portBeBytes a.port
  | .v6 o => o ++ portBeBytes a.port

/-- src/src/krpc/node.rs: the Into Vec of u8 impl for Node, the 20 id bytes
followed by the compact peer address. -/
def compactNode (n : Node) : ByteStr :=
  n.id.bytes ++ compactPeerAddress n.peer_address

/-! ## Routing table (src/src/dht/routing_table.rs) -/

/-- src/src/dht/routing_table.rs: NodeExt, a bucket entry: last-heard
timestamp, the node record and the non-responding strike counter.
Instant is modelled as Nat. -/
structure NodeExt where
  last_updated : Nat
  node : Node
  no_responding_times : Nat
deriving DecidableEq, Repr

/-- NodeExt::new with an explicit now. -/
def NodeExt.new (node : Node) (now : Nat) : NodeExt :=
  ⟨now, node, 0⟩

/-- NodeExt::is_questionable (Instant subtraction saturates at zero). -/
def NodeExt.is_questionable (ne : NodeExt) (now : Nat) (questionable_interval : Nat) : Bool :=
  decide (questionable_interval < now - ne.last_updated)

/-- NodeExt::is_dead. -/
def NodeExt.is_dead (ne : NodeExt) : Bool :=
  decide (3 ≤ ne.no_responding_times)

/-- src/src/dht/routing_table.rs: Bucket.  The HashMap from node id to
NodeExt is modelled as a list of entries keyed by the id of the contained
node; the HashMap key-uniqueness invariant is the predicate Bucket.wf. -/
structure Bucket where
  nodes : List NodeExt
  last_updated : Nat
  k : Nat
  questionable_interval : Nat
deriving DecidableEq, Repr

/-- Bucket::new with an explicit now. -/
def Bucket.new (k : Nat) (questionable_interval : Nat) (now : Nat) : Bucket :=
  ⟨[], now, k, questionable_interval⟩

/-- HashMap key uniqueness: node ids in a bucket are pairwise distinct. -/
def Bucket.wf (b : Bucket) : Prop :=
  (b.nodes.map fun ne => ne.node.id).Nodup

/-- src/src/dht/routing_table.rs: Bucket::insert with an explicit now.
If the id is present the entry is updated in place (strike counter
cleared, node record replaced, timestamp refreshed); otherwise dead
entries are evicted and the node is added if the bucket is below
capacity.  Returns true when the id was not already present. -/
def Bucket.insert (b : Bucket) (now : Nat) (node : Node) : Bucket × Bool :=
  if b.nodes.any fun ne => decide (ne.node.id = node.id) then
    ({ b with
        last_updated := now
        nodes := b.nodes.map fun ne =>
          if decide (ne.node.id = node.id) then ⟨now, node, 0⟩ else ne },
      false)
  else
    let retained := b.nodes.filter fun ne => !ne.is_dead
    if retained.length < b.k then
      ({ b with last_updated := now, nodes := retained ++ [NodeExt.new node now] }, true)
    else
      ({ b with last_updated := now, nodes := retained }, true)

/-- src/src/dht/routing_table.rs: RoutingTable. -/
structure RoutingTable where
  id : HashPiece
  buckets : List Bucket
deriving DecidableEq, Repr

/-- RoutingTable::new: ID_LEN * 8 = 160 eagerly created buckets. -/
def RoutingTable.new (id : HashPiece) (k : Nat) (questionable_interval : Nat) (now : Nat) :
    RoutingTable :=
  ⟨id, List.replicate (ID_LEN * 8) (Bucket.new k questionable_interval now)⟩

/-- src/src/dht/routing_table.rs: RoutingTable::insert.  The bucket index
is count_ones of the xor distance minus one (an unsigned subtraction).
Returns none exactly where the Rust code would panic: on usize underflow
of the subtraction, or on an out-of-range bucket index. -/
def RoutingTable.insert (t : RoutingTable) (now : Nat) (node : Node) : Option RoutingTable :=
  if node.id = t.id then some t
  else
    let ones := (HashPiece.xor node.id t.id).count_ones
    if ones = 0 then none
    else
      let bucket_index := ones - 1
      if h : bucket_index < t.buckets.length then
        some { t with
          buckets := t.buckets.set bucket_index ((t.buckets.get ⟨bucket_index, h⟩).insert now node).1 }
      else none

/-- A sequence of inserts (each with its own clock value), propagating the
panic-freedom of each step. -/
def RoutingTable.insertAll (t : RoutingTable) (ops : List (Nat × Node)) : Option RoutingTable :=
  match ops with
  | [] => some t
  | op :: rest => (t.insert op.1 op.2).bind fun t1 => t1.insertAll rest

/-- The sort key of RoutingTable::closest: count_ones of the xor with the
target. -/
def nodeKey (target : HashPiece) (n : Node) : Nat :=
  (HashPiece.xor n.id target).count_ones

/-- src/src/dht/routing_table.rs: RoutingTable::closest.  Collects every
node passing the filter (buckets in index order), stable-sorts by
count_ones of the xor distance to the target, and truncates to max.
Vec::sort_by_key is a stable sort, and a stable sort is a unique function
of the key order, so the stable List.insertionSort models it exactly. -/
def RoutingTable.closest (t : RoutingTable) (target : HashPiece) (max : Nat) (f : Node → Bool) :
    List Node :=
  let nodes := t.buckets.flatMap fun b => (b.nodes.filter fun ne => f ne.node).map fun ne => ne.node
  (nodes.insertionSort fun a b => nodeKey target a ≤ nodeKey target b).take max

/-! ## Spec-side definitions for the bucket-index policy (claim C1/C3)

The source has no leading-zero-count function; the spec describes the
bucket index and the closest-k order in terms of one.  The following
definitions are written from the spec wording, to be compared with the
code-side definitions above. -/

/-- Modelled from the spec: the number of leading zero bits of a byte
value (the source has no such function). -/
def byteLZ (b : Nat) : Nat :=
  if 128 ≤ b then 0
  else if 64 ≤ b then 1
  else if 32 ≤ b then 2
  else if 16 ≤ b then 3
  else if 8 ≤ b then 4
  else if 4 ≤ b then 5
  else if 2 ≤ b then 6
  else if 1 ≤ b then 7
  else 8

/-- Modelled from the spec: leading zero bits of a byte sequence read
most-significant byte first. -/
def leadingZeroCountAux : ByteStr → Nat
  | [] => 0
  | b :: rest => if b = 0 then 8 + leadingZeroCountAux rest else byteLZ b

/-- Modelled from the spec: leading_zero_count of a 160-bit value; the
spec's bucket-index policy is leading_zero_count(remote XOR self). -/
def leadingZeroCount (h : HashPiece) : Nat :=
  leadingZeroCountAux h.bytes

/-- Modelled from the spec: strict lexicographic (numeric) order on
byte sequences of equal length, the spec's order on XOR distances. -/
def bytesLexLt : ByteStr → ByteStr → Bool
  | [], [] => false
  | [], _ :: _ => true
  | _ :: _, [] => false
  | a :: as, b :: bs => if a < b then true else if b < a then false else bytesLexLt as bs

/-! ## Concrete fixtures used by counterexamples and witnesses -/

/-- The all-zero id. -/
def zeroId : HashPiece := ⟨List.replicate 20 0⟩

/-- An id whose xor with zeroId has one bit, in the least significant
position: count_ones = 1 but leading_zero_count = 159. -/
def oneId : HashPiece := ⟨List.replicate 19 0 ++ [1]⟩

/-- A sample v4 peer address. -/
def addrA : PeerAddress := ⟨.v4 [1, 2, 3, 4], 80⟩

/-- The node inserted in the C1 counterexample. -/
def nodeC1 : Node := ⟨oneId, addrA⟩

/-- A fresh routing table with self id zeroId. -/
def tblC1 : RoutingTable := RoutingTable.new zeroId 8 900 0

/-- Node with xor weight 1 but lexicographically largest distance byte. -/
def nodeA : Node := ⟨⟨[128] ++ List.replicate 19 0⟩, addrA⟩

/-- Node with xor weight 2 but lexicographically small distance. -/
def nodeB : Node := ⟨⟨[3] ++ List.replicate 19 0⟩, ⟨.v4 [5, 6, 7, 8], 81⟩⟩

/-- A singleton bucket holding one fresh entry for n. -/
def bucketWith (n : Node) : Bucket := ⟨[⟨0, n, 0⟩], 0, 8, 900⟩

/-- Routing-table state for the C3 counterexample: nodeA in bucket 0,
nodeB in bucket 1 (their bucket indexes under the code's policy). -/
def tblC3 : RoutingTable :=
  ⟨zeroId, ((List.replicate 160 (Bucket.new 8 900 0)).set 0 (bucketWith nodeA)).set 1
    (bucketWith nodeB)⟩

/-- The number of entries in a bucket entry list carrying a given id. -/
def countId (ns : List NodeExt) (id : HashPiece) : Nat :=
  (ns.filter fun ne => decide (ne.node.id = id)).length

/-- The bucket-placement invariant of the code: every stored entry sits in
the bucket indexed by count_ones of its xor distance to the self id,
minus one. -/
def RoutingTable.bucketInv (t : RoutingTable) : Prop :=
  ∀ (i : Nat) (h : i < t.buckets.length), ∀ ne ∈ (t.buckets.get ⟨i, h⟩).nodes,
    (HashPiece.xor ne.node.id t.id).count_ones - 1 = i

instance (b : Bucket) : Decidable b.wf := by
  unfold Bucket.wf; infer_instance

/-- A second node with the same id as nodeA but a different address. -/
def nodeA2 : Node := ⟨⟨[128] ++ List.replicate 19 0⟩, ⟨.v4 [9, 9, 9, 9], 82⟩⟩

/-- A full bucket (k = 1) holding one live node with a different id. -/
def fullBucket : Bucket := ⟨[⟨0, nodeB, 0⟩], 0, 1, 900⟩

/-! ## Bencode values, token manager (src/src/dht/token.rs) -/

mutual
/-- src/src/bencode/value.rs: Value, the bencode dictionary data type.
Rust String keys are modelled by their UTF-8 bytes; the BTreeMap is a
key-sorted sequence of entries (sortedness is part of well-formed use,
not of the type).  The list and dict spines are mutual inductives rather
than List so that equality is derivable and kernel-computable. -/
inductive BValue where
  | bytes : ByteStr → BValue
  | int : Int → BValue
  | list : BValueList → BValue
  | dict : BValueDict → BValue
deriving DecidableEq, Repr
inductive BValueList where
  | nil : BValueList
  | cons : BValue → BValueList → BValueList
deriving DecidableEq, Repr
inductive BValueDict where
  | nil : BValueDict
  | cons : ByteStr → BValue → BValueDict → BValueDict
deriving DecidableEq, Repr
end

/-- src/src/dht/token.rs: TokenManager.  The token cache token_m is
unused by the claims settled here and is not modelled.  SystemTime is
seconds since the epoch. -/
structure TokenManager where
  secret : ByteStr
  interval : Nat
  max_interval_count : Nat
deriving DecidableEq, Repr

/-- u64::to_be_bytes of the interval counter, as fed to the hasher. -/
def be64 (n : Nat) : ByteStr :=
  [n / 256 ^ 7 % 256, n / 256 ^ 6 % 256, n / 256 ^ 5 % 256, n / 256 ^ 4 % 256,
   n / 256 ^ 3 % 256, n / 256 ^ 2 % 256, n / 256 % 256, n % 256]

/-- The interval counter create_token actually computes:
seconds-since-epoch MODULO the interval length (source expression
now.duration_since(UNIX_EPOCH).as_secs() % self.interval.as_secs()). -/
def TokenManager.tokenCounter (tm : TokenManager) (now : Nat) : Nat :=
  now % tm.interval

/-- Modelled from the spec: the interval counter the spec prescribes for
create_token, floor(seconds-since-epoch / token_interval); the source
computes a remainder instead. -/
def specTokenCounter (tm : TokenManager) (now : Nat) : Nat :=
  now / tm.interval

/-- src/src/dht/token.rs: TokenManager::create_token with an explicit
now.  SHA-1 itself is not re-modelled: the token value is represented by
the byte stream fed to the hasher (compact address, eight big-endian
counter bytes, secret).  Equal hasher inputs yield equal SHA-1 digests,
so every token equality proved of this model holds of the real digests;
token inequalities are only relied on where the real byte strings also
differ (a digest always has 20 bytes). -/
def TokenManager.create_token (tm : TokenManager) (now : Nat) (node : PeerAddress) : BValue :=
  BValue.bytes (compactPeerAddress node ++ be64 (tm.tokenCounter now) ++ tm.secret)

/-- src/src/dht/token.rs: TokenManager::valid_token with an explicit now:
recompute the token for the current and the max_interval_count previous
intervals and accept on any match. -/
def TokenManager.valid_token (tm : TokenManager) (now : Nat) (token : BValue)
    (node : PeerAddress) : Bool :=
  (List.range (tm.max_interval_count + 1)).any fun i =>
    decide (tm.create_token (now - i * tm.interval) node = token)

/-- Token manager for the C2 failing input: secret "sec", 30-second
interval, max_token_interval_count 2. -/
def tmC2 : TokenManager := ⟨[115, 101, 99], 30, 2⟩

/-! ## Transactions (src/src/dht/transaction.rs) and lookup depth -/

/-- src/src/krpc/message.rs: QueryType. -/
inductive QueryType where
  | ping
  | find_node
  | get_peers
  | announce_peer
deriving DecidableEq, Repr

/-- src/src/dht/transaction.rs: Transaction.  The reply channel and the
shared visited-id set are omitted: the claims below concern only the
depth, target, kind and creation time. -/
structure Transaction where
  depth : Nat
  target : Option HashPiece
  query_type : QueryType
  last_updated : Nat
deriving DecidableEq, Repr

/-- src/src/dht/transaction.rs: TransactionManager.  The auxiliary
id_seqs index is derived bookkeeping over the same entries and is not
modelled. -/
structure TransactionManager where
  seq_transactions : List (Nat × Transaction)
deriving DecidableEq, Repr

/-- src/src/dht/transaction.rs: TransactionManager::refresh, the sweep:
drain_filter with predicate tran.last_updated - now > time_out (operand
order as in the source; Instant subtraction saturates at zero).  Returns
the manager after removal together with the removed transactions. -/
def TransactionManager.refresh (m : TransactionManager) (now : Nat) (time_out : Nat) :
    TransactionManager × List Transaction :=
  (⟨m.seq_transactions.filter fun st => !decide (time_out < st.2.last_updated - now)⟩,
   (m.seq_transactions.filter fun st => decide (time_out < st.2.last_updated - now)).map
     fun st => st.2)

/-- A transaction created at time 0 (the C5 failing input). -/
def tranOld : Transaction := ⟨0, none, QueryType.ping, 0⟩

/-- Manager state holding only tranOld. -/
def mgrC5 : TransactionManager := ⟨[(1, tranOld)]⟩

/-- Whether a query kind drives an iterative lookup whose response
handler decrements the depth (on_find_node_rsp / on_get_peers_rsp). -/
def QueryType.isLookup : QueryType → Bool
  | .find_node => true
  | .get_peers => true
  | _ => false

/-- A registered transaction projected to the data the depth discipline
concerns: its kind and its remaining depth. -/
structure TranEntry where
  query_type : QueryType
  depth : Nat
deriving DecidableEq, Repr

/-- The transaction-registry states reachable in src/src/dht/mod.rs,
projected to (kind, depth) pairs.  Constructors mirror the operations
that register or remove transactions: Dht::ping and Dht::announce_peer
register depth-0 non-lookup transactions; Dht::find_node, bootstrap and
Dht::get_peers register lookup transactions at the configured depth;
handle_error, on_ping_rsp and timeouts remove one; on_find_node_rsp and
on_get_peers_rsp remove the responding transaction, decrement its depth
once, and re-register k copies only under the source guard
tran.depth > 0 evaluated after the decrement. -/
inductive DhtTrace (cfgDepth : Nat) : List TranEntry → Prop where
  | init : DhtTrace cfgDepth []
  | ping (s : List TranEntry) : DhtTrace cfgDepth s →
      DhtTrace cfgDepth (⟨QueryType.ping, 0⟩ :: s)
  | announce_peer (s : List TranEntry) : DhtTrace cfgDepth s →
      DhtTrace cfgDepth (⟨QueryType.announce_peer, 0⟩ :: s)
  | find_node (s : List TranEntry) : DhtTrace cfgDepth s →
      DhtTrace cfgDepth (⟨QueryType.find_node, cfgDepth⟩ :: s)
  | get_peers (s : List TranEntry) : DhtTrace cfgDepth s →
      DhtTrace cfgDepth (⟨QueryType.get_peers, cfgDepth⟩ :: s)
  | remove (s1 s2 : List TranEntry) (e : TranEntry) :
      DhtTrace cfgDepth (s1 ++ e :: s2) → DhtTrace cfgDepth (s1 ++ s2)
  | fan_out (s1 s2 : List TranEntry) (e : TranEntry) (k : Nat) :
      e.query_type.isLookup = true → (k ≠ 0 → 0 < e.depth - 1) →
      DhtTrace cfgDepth (s1 ++ e :: s2) →
      DhtTrace cfgDepth (List.replicate k ⟨e.query_type, e.depth - 1⟩ ++ (s1 ++ s2))

/-! ## KRPC messages (src/src/krpc/message.rs) and query handlers -/

/-- src/src/krpc/message.rs: MessageType (y field): query, response or
error. -/
inductive MessageType where
  | query
  | response
  | error
deriving DecidableEq, Repr

/-- src/src/krpc/error.rs: KrpcError.  KrpcErrorCode is a #[repr(i64)]
enum converted from the wire integer by transmute, so it is modelled by
its i64 value. -/
structure KrpcError where
  code : Int
  desc : ByteStr
deriving DecidableEq, Repr

/-- src/src/krpc/message.rs: KrpcQuery (the a dictionary).  Optional
fields carry serde skip_serializing_if / default; want is skipped when
empty. -/
structure KrpcQuery where
  id : HashPiece
  target : Option HashPiece
  info_hash : Option HashPiece
  port : Option Nat
  token : Option BValue
  implied_port : Option Bool
  want : List ByteStr
deriving DecidableEq, Repr

/-- src/src/krpc/message.rs: KrpcResponse (the r dictionary).
CompactNodes and CompactAddresses newtypes are modelled by the node and
address lists they wrap. -/
structure KrpcResponse where
  id : HashPiece
  nodes : Option (List Node)
  nodes6 : Option (List Node)
  token : Option BValue
  values : Option (List PeerAddress)
deriving DecidableEq, Repr

/-- src/src/krpc/message.rs: KrpcMessage. -/
structure KrpcMessage where
  t : ByteStr
  y : MessageType
  q : Option QueryType
  a : Option KrpcQuery
  r : Option KrpcResponse
  e : Option KrpcError
  ro : Option Bool
deriving DecidableEq, Repr

/-- src/src/dht/error.rs: the DhtError variants the handlers below
produce (Protocol carries the message string's bytes; InVaildToken is
the source's spelling). -/
inductive DhtError where
  | protocol : ByteStr → DhtError
  | inVaildToken : DhtError
deriving DecidableEq, Repr

/-- The bytes of "Not Found info_hash". -/
def msgNotFoundInfoHash : ByteStr :=
  [78, 111, 116, 32, 70, 111, 117, 110, 100, 32, 105, 110, 102, 111, 95, 104, 97, 115, 104]

/-- The bytes of "Not Found token". -/
def msgNotFoundToken : ByteStr :=
  [78, 111, 116, 32, 70, 111, 117, 110, 100, 32, 116, 111, 107, 101, 110]

instance {e a : Type} [DecidableEq e] [DecidableEq a] : DecidableEq (Except e a) := fun x y =>
  match x, y with
  | .error x1, .error y1 =>
    if h : x1 = y1 then isTrue (by rw [h]) else isFalse (by intro hc; cases hc; exact h rfl)
  | .ok x1, .ok y1 =>
    if h : x1 = y1 then isTrue (by rw [h]) else isFalse (by intro hc; cases hc; exact h rfl)
  | .error _, .ok _ => isFalse (by intro hc; cases hc)
  | .ok _, .error _ => isFalse (by intro hc; cases hc)

/-- Modelled from the spec: the peer-store operation
insert_info_hash(info_hash, node).  The PeerStore implementation the dht
module calls is not among the sources; the spec's in-memory store maps
info-hash to announcing nodes, here an append-only association list. -/
def insert_info_hash (store : List (HashPiece × Node)) (info_hash : HashPiece) (node : Node) :
    List (HashPiece × Node) :=
  store ++ [(info_hash, node)]

/-- Modelled from the spec: the peer-store operation
get_peer_addresses(info_hash, max, filter): up to max stored nodes for
the info-hash passing the filter. -/
def get_peer_addresses (store : List (HashPiece × Node)) (info_hash : HashPiece) (max : Nat)
    (f : Node → Bool) : List Node :=
  (((store.filter fun p => decide (p.1 = info_hash)).map fun p => p.2).filter f).take max

/-- src/src/dht/mod.rs, handle_get_peers_req lines 316-345: the BEP 32
want handling, folded into the peer filter passed to the store ("n4" is
bytes 110,52; "n6" is bytes 110,54). -/
def wantFilter (want : List ByteStr) (addr : PeerAddress) : Node → Bool :=
  let want_ipv4 := want.any fun n => decide (n = [110, 52])
  let want_ipv6 := want.any fun n => decide (n = [110, 54])
  fun node =>
    if !want_ipv4 && !want_ipv6 then
      if addr.is_ipv4 then node.peer_address.is_ipv4 else node.peer_address.is_ipv6
    else if want_ipv4 && want_ipv6 then true
    else if want_ipv4 then node.peer_address.is_ipv4
    else node.peer_address.is_ipv6

/-- src/src/dht/mod.rs: Dht::handle_get_peers_req.  Requires info_hash;
always sets values (possibly the empty list) from the peer store, never
nodes or nodes6, and always a fresh token for the querying address.
Returns the reply message and the address it is sent to. -/
def handle_get_peers_req (selfId : HashPiece) (k : Nat) (tm : TokenManager) (now : Nat)
    (store : List (HashPiece × Node)) (req : KrpcQuery) (tran_id : ByteStr)
    (addr : PeerAddress) : Except DhtError (KrpcMessage × PeerAddress) :=
  match req.info_hash with
  | none => .error (.protocol msgNotFoundInfoHash)
  | some info_hash =>
    let peer_nodes := get_peer_addresses store info_hash k (wantFilter req.want addr)
    let rsp : KrpcResponse :=
      ⟨selfId, none, none, some (tm.create_token now addr),
        some (peer_nodes.map fun n => n.peer_address)⟩
    .ok (⟨tran_id, MessageType.response, none, none, some rsp, none, none⟩, addr)

/-- src/src/dht/mod.rs: Dht::handle_announce_peer_req.  Requires
info_hash and token; on an invalid token it aborts with the local error
DhtError::InVaildToken - it does not send any reply and does not touch
the peer store.  On success it returns the reply message, the
(possibly port-rewritten) peer address it is sent to, and the updated
store. -/
def handle_announce_peer_req (tm : TokenManager) (now : Nat)
    (store : List (HashPiece × Node)) (req : KrpcQuery) (tran_id : ByteStr)
    (addr : PeerAddress) :
    Except DhtError (KrpcMessage × PeerAddress × List (HashPiece × Node)) :=
  match req.info_hash with
  | none => .error (.protocol msgNotFoundInfoHash)
  | some info_hash =>
    match req.token with
    | none => .error (.protocol msgNotFoundToken)
    | some token =>
      if tm.valid_token now token addr then
        let rsp : KrpcResponse := ⟨req.id, none, none, none, none⟩
        let message : KrpcMessage :=
          ⟨tran_id, MessageType.response, none, none, some rsp, none, none⟩
        let addr2 :=
          if req.implied_port = none then
            match req.port with
            | some p => ⟨addr.ip, p⟩
            | none => addr
          else addr
        .ok (message, addr2, insert_info_hash store info_hash ⟨req.id, addr2⟩)
      else .error .inVaildToken

/-- The outbound messages a handler run produces: one on success, none
when it aborts with an error (rsp_loop only logs handler errors). -/
def handlerSentMessages
    (r : Except DhtError (KrpcMessage × PeerAddress × List (HashPiece × Node))) :
    List KrpcMessage :=
  match r with
  | .ok (m, _, _) => [m]
  | .error _ => []

/-- A token no get_peers ever issued (three bytes; real tokens are
20-byte digests, so the inequality holds of the real values too). -/
def badToken : BValue := BValue.bytes [1, 2, 3]

/-- announce_peer query with an invalid token (C4 failing input). -/
def reqC4 : KrpcQuery := ⟨oneId, none, some zeroId, none, some badToken, none, []⟩

/-- get_peers query for info-hash zeroId with no want list (C6). -/
def reqC6 : KrpcQuery := ⟨oneId, none, some zeroId, none, none, none, []⟩

/-! ## Bencode encoding of KrpcMessage (src/src/bencode/ser.rs and the
serde derives of src/src/krpc/message.rs) -/

/-- Fuel-bounded helper for natToDec (the fuel only makes the recursion
structural; natToDec supplies enough for any input). -/
def natToDecAux : Nat → Nat → ByteStr
  | 0, _ => []
  | fuel + 1, n => if n < 10 then [48 + n] else natToDecAux fuel (n / 10) ++ [48 + n % 10]

/-- The ASCII decimal digits of a natural number, most significant
first (the Display format used by the serializer). -/
def natToDec (n : Nat) : ByteStr :=
  natToDecAux (n + 1) n

/-- The ASCII rendering of an i64 (Display: optional minus, digits). -/
def intToDec (i : Int) : ByteStr :=
  if i < 0 then 45 :: natToDec i.natAbs else natToDec i.toNat

/-- ser.rs serialize_i64: the bencode integer form i<digits>e. -/
def encInt (i : Int) : ByteStr :=
  105 :: (intToDec i ++ [101])

/-- ser.rs serialize_bytes / serialize_str: <len>:<bytes>. -/
def encBytes (b : ByteStr) : ByteStr :=
  natToDec b.length ++ 58 :: b

/-- ser.rs serialize_bool: booleans go out as i64 zero or one. -/
def encBool (b : Bool) : ByteStr :=
  encInt (if b then 1 else 0)

/-- message.rs: the Serialize impl for MessageType, the one-byte strings
q, r and e. -/
def encMessageType : MessageType → ByteStr
  | .query => encBytes [113]
  | .response => encBytes [114]
  | .error => encBytes [101]

/-- message.rs: the Serialize impl for QueryType: ping, find_node,
get_peers, announce_peer. -/
def encQueryType : QueryType → ByteStr
  | .ping => encBytes [112, 105, 110, 103]
  | .find_node => encBytes [102, 105, 110, 100, 95, 110, 111, 100, 101]
  | .get_peers => encBytes [103, 101, 116, 95, 112, 101, 101, 114, 115]
  | .announce_peer => encBytes [97, 110, 110, 111, 117, 110, 99, 101, 95, 112, 101, 101, 114]

/-- piece.rs: the Serialize impl for HashPiece: the 20 raw bytes. -/
def encHashPiece (h : HashPiece) : ByteStr :=
  encBytes h.bytes

mutual
/-- value.rs: the Serialize impl for Value. -/
def encBValue : BValue → ByteStr
  | .bytes b => encBytes b
  | .int i => encInt i
  | .list l => 108 :: (encBValueListItems l ++ [101])
  | .dict d => 100 :: (encBValueDictItems d ++ [101])
/-- List elements in order. -/
def encBValueListItems : BValueList → ByteStr
  | .nil => []
  | .cons v rest => encBValue v ++ encBValueListItems rest
/-- Dict entries in stored (BTreeMap) order: key string then value. -/
def encBValueDictItems : BValueDict → ByteStr
  | .nil => []
  | .cons k v rest => encBytes k ++ encBValue v ++ encBValueDictItems rest
end

/-- node.rs: the Serialize impl for CompactNodes: the concatenated
compact node records as one byte string. -/
def encCompactNodes (l : List Node) : ByteStr :=
  encBytes (l.flatMap compactNode)

/-- address.rs: the Serialize impl for CompactAddresses: the
concatenated compact addresses as one byte string. -/
def encCompactAddresses (l : List PeerAddress) : ByteStr :=
  encBytes (l.flatMap compactPeerAddress)

/-- error.rs: the Serialize impl for KrpcError: a two-element list of
the i64 code and the description string. -/
def encKrpcError (e : KrpcError) : ByteStr :=
  108 :: (encInt e.code ++ encBytes e.desc ++ [101])

/-- The want list: a bencode list of strings. -/
def encWant (w : List ByteStr) : ByteStr :=
  108 :: (w.flatMap encBytes ++ [101])

/-- An optional struct field: skipped entirely (key included) when
none, per skip_serializing_if. -/
def encOptField (key : ByteStr) (enc : α → ByteStr) : Option α → ByteStr
  | none => []
  | some v => encBytes key ++ enc v

/-- message.rs + ser.rs: the serde-derived encoding of KrpcQuery.
SerializeStruct sorts the static field names before writing, giving the
fixed key order id, implied_port, info_hash, port, target, token, want;
empty want is skipped (serde skip_serializing_if Vec::is_empty). -/
def encKrpcQuery (q : KrpcQuery) : ByteStr :=
  100 :: (encBytes [105, 100] ++ encHashPiece q.id
    ++ encOptField [105, 109, 112, 108, 105, 101, 100, 95, 112, 111, 114, 116] encBool
        q.implied_port
    ++ encOptField [105, 110, 102, 111, 95, 104, 97, 115, 104] encHashPiece q.info_hash
    ++ encOptField [112, 111, 114, 116] (fun p => encInt p) q.port
    ++ encOptField [116, 97, 114, 103, 101, 116] encHashPiece q.target
    ++ encOptField [116, 111, 107, 101, 110] encBValue q.token
    ++ (match q.want with
        | [] => []
        | w => encBytes [119, 97, 110, 116] ++ encWant w)
    ++ [101])

/-- message.rs + ser.rs: the serde-derived encoding of KrpcResponse;
sorted key order id, nodes, nodes6, token, values. -/
def encKrpcResponse (r : KrpcResponse) : ByteStr :=
  100 :: (encBytes [105, 100] ++ encHashPiece r.id
    ++ encOptField [110, 111, 100, 101, 115] encCompactNodes r.nodes
    ++ encOptField [110, 111, 100, 101, 115, 54] encCompactNodes r.nodes6
    ++ encOptField [116, 111, 107, 101, 110] encBValue r.token
    ++ encOptField [118, 97, 108, 117, 101, 115] encCompactAddresses r.values
    ++ [101])

/-- message.rs + ser.rs: the serde-derived encoding of KrpcMessage
(to_bytes); sorted key order a, e, q, r, ro, t, y. -/
def encKrpcMessage (m : KrpcMessage) : ByteStr :=
  100 :: (encOptField [97] encKrpcQuery m.a
    ++ encOptField [101] encKrpcError m.e
    ++ encOptField [113] encQueryType m.q
    ++ encOptField [114] encKrpcResponse m.r
    ++ encOptField [114, 111] encBool m.ro
    ++ encBytes [116] ++ encBytes m.t
    ++ encBytes [121] ++ encMessageType m.y
    ++ [101])

/-! ## Bencode decoding of KrpcMessage (src/src/bencode/de.rs and the
serde derives).  Rust strings are byte sequences here, so the
String::from_utf8 validations of de.rs are identities and not modelled;
all other failure paths are.  Loops and recursive Value parsing carry a
fuel argument that only bounds recursion depth (from_bytes passes more
than enough for any input). -/

/-- ASCII digit test. -/
def isDigitB (c : Nat) : Bool :=
  decide (48 ≤ c) && decide (c ≤ 57)

/-- de.rs parse_int, the collection loop: read until an e or a colon,
collecting digit or minus characters; anything else is an error. -/
def parseIntRaw : ByteStr → Option (ByteStr × ByteStr)
  | [] => none
  | c :: rest =>
    if c = 101 ∨ c = 58 then some ([], rest)
    else if isDigitB c ∨ c = 45 then
      (parseIntRaw rest).map fun p => (c :: p.1, p.2)
    else none

/-- Accumulating decimal evaluation of a digit run (non-digit fails). -/
def decDigitsAux (acc : Nat) : ByteStr → Option Nat
  | [] => some acc
  | c :: rest => if isDigitB c then decDigitsAux (acc * 10 + (c - 48)) rest else none

/-- i64::MAX. -/
def I64MAX : Nat := 9223372036854775807

/-- i64::from_str on the collected characters: optional leading minus,
at least one digit, all digits, value in the i64 range. -/
def decToInt (ds : ByteStr) : Option Int :=
  match ds with
  | [] => none
  | c :: rest =>
    if c = 45 then
      match rest with
      | [] => none
      | _ :: _ => (decDigitsAux 0 rest).bind fun n =>
          if n ≤ I64MAX + 1 then some (-(n : Int)) else none
    else
      (decDigitsAux 0 (c :: rest)).bind fun n => if n ≤ I64MAX then some ((n : Int)) else none

/-- de.rs deserialize_i64 (also the integer arm of deserialize_any):
the next byte must be an i, then parse_int up to the closing e. -/
def parseI64 : ByteStr → Option (Int × ByteStr)
  | 105 :: rest => (parseIntRaw rest).bind fun p => (decToInt p.1).map fun i => (i, p.2)
  | _ => none

/-- de.rs parse_bytes behind the Bytes dispatch (first byte must be a
digit): parse_int for the length, then read_exact that many bytes.  A
negative length casts to a huge usize and read_exact fails; both
shortages are the none case. -/
def parseBytes (s : ByteStr) : Option (ByteStr × ByteStr) :=
  match s with
  | [] => none
  | c :: _ =>
    if isDigitB c then
      (parseIntRaw s).bind fun p =>
        (decToInt p.1).bind fun len =>
          if 0 ≤ len ∧ len.toNat ≤ p.2.length then
            some (p.2.take len.toNat, p.2.drop len.toNat)
          else none
    else none

/-- String's Ord (byte-lexicographic), used by the BTreeMap that
Value::Dict parsing inserts into. -/
def byteStrLt : ByteStr → ByteStr → Bool
  | [], [] => false
  | [], _ :: _ => true
  | _ :: _, [] => false
  | a :: as, b :: bs => if a < b then true else if b < a then false else byteStrLt as bs

/-- BTreeMap::insert keyed by byte strings: ordered insertion replacing
the value at an equal key. -/
def bdictInsert : BValueDict → ByteStr → BValue → BValueDict
  | .nil, k, v => .cons k v .nil
  | .cons k0 v0 rest, k, v =>
    if byteStrLt k k0 then .cons k v (.cons k0 v0 rest)
    else if k = k0 then .cons k v rest
    else .cons k0 v0 (bdictInsert rest k v)

mutual
/-- de.rs deserialize_any with value.rs ValueVisitor: dispatch on the
first byte into integer, byte string, list or dict. -/
def parseBValue : Nat → ByteStr → Option (BValue × ByteStr)
  | 0, _ => none
  | fuel + 1, s =>
    match s with
    | [] => none
    | c :: rest =>
      if c = 105 then
        (parseIntRaw rest).bind fun p => (decToInt p.1).map fun i => (BValue.int i, p.2)
      else if isDigitB c then
        (parseBytes (c :: rest)).map fun p => (BValue.bytes p.1, p.2)
      else if c = 108 then
        (parseBValueListItems fuel rest).map fun p => (BValue.list p.1, p.2)
      else if c = 100 then
        (parseBValueDictItems fuel BValueDict.nil rest).map fun p => (BValue.dict p.1, p.2)
      else none
/-- ValueVisitor visit_seq: elements until the closing e. -/
def parseBValueListItems : Nat → ByteStr → Option (BValueList × ByteStr)
  | 0, _ => none
  | fuel + 1, s =>
    match s with
    | [] => none
    | c :: rest =>
      if c = 101 then some (.nil, rest)
      else
        (parseBValue fuel (c :: rest)).bind fun p =>
        (parseBValueListItems fuel p.2).map fun q => (BValueList.cons p.1 q.1, q.2)
/-- ValueVisitor visit_map: key/value entries until the closing e,
inserted into a BTreeMap. -/
def parseBValueDictItems : Nat → BValueDict → ByteStr → Option (BValueDict × ByteStr)
  | 0, _, _ => none
  | fuel + 1, acc, s =>
    match s with
    | [] => none
    | c :: rest =>
      if c = 101 then some (acc, rest)
      else
        (parseBytes (c :: rest)).bind fun pk =>
        (parseBValue fuel pk.2).bind fun pv =>
        parseBValueDictItems fuel (bdictInsert acc pk.1 pv.1) pv.2
end

/-- piece.rs: the Deserialize impl for HashPiece: a byte string of
exactly 20 bytes. -/
def parseHashPiece (s : ByteStr) : Option (HashPiece × ByteStr) :=
  (parseBytes s).bind fun p => if p.1.length = ID_LEN then some (⟨p.1⟩, p.2) else none

/-- de.rs deserialize_u16: an integer that fits in a u16. -/
def parseU16 (s : ByteStr) : Option (Nat × ByteStr) :=
  (parseI64 s).bind fun p => if 0 ≤ p.1 ∧ p.1 < 65536 then some (p.1.toNat, p.2) else none

/-- de.rs deserialize_bool: an integer, nonzero means true. -/
def parseBool (s : ByteStr) : Option (Bool × ByteStr) :=
  (parseI64 s).map fun p => (decide (p.1 ≠ 0), p.2)

/-- message.rs: the Deserialize impl for MessageType (visit_str on q, r
or e). -/
def parseMessageType (s : ByteStr) : Option (MessageType × ByteStr) :=
  (parseBytes s).bind fun p =>
    if p.1 = [113] then some (.query, p.2)
    else if p.1 = [114] then some (.response, p.2)
    else if p.1 = [101] then some (.error, p.2)
    else none

/-- message.rs: the Deserialize impl for QueryType. -/
def parseQueryType (s : ByteStr) : Option (QueryType × ByteStr) :=
  (parseBytes s).bind fun p =>
    if p.1 = [112, 105, 110, 103] then some (.ping, p.2)
    else if p.1 = [102, 105, 110, 100, 95, 110, 111, 100, 101] then some (.find_node, p.2)
    else if p.1 = [103, 101, 116, 95, 112, 101, 101, 114, 115] then some (.get_peers, p.2)
    else if p.1 = [97, 110, 110, 111, 117, 110, 99, 101, 95, 112, 101, 101, 114] then
      some (.announce_peer, p.2)
    else none

/-- node.rs: Node::from on a compact record; callers pass 26-byte (v4)
or 38-byte (v6) slices, everything else is the source's unreachable. -/
def nodeFromBytes (v : ByteStr) : Node :=
  if v.length = 26 then
    ⟨⟨v.take 20⟩, ⟨.v4 ((v.drop 20).take 4), 256 * v.getD 24 0 + v.getD 25 0⟩⟩
  else
    ⟨⟨v.take 20⟩, ⟨.v6 ((v.drop 20).take 16), 256 * v.getD 36 0 + v.getD 37 0⟩⟩

/-- address.rs: PeerAddress::from on a compact slice; note the v6 arm
reads the port from bytes 4 and 5, exactly as the source does. -/
def peerAddressFromBytes (v : ByteStr) : PeerAddress :=
  if v.length = 6 then
    ⟨.v4 (v.take 4), 256 * v.getD 4 0 + v.getD 5 0⟩
  else
    ⟨.v6 (v.take 16), 256 * v.getD 4 0 + v.getD 5 0⟩

/-- The source's chunking loops, for i in 0..len/n the slice
v[i*n..(i+1)*n]. -/
def chunksOf (n : Nat) (l : ByteStr) : List ByteStr :=
  (List.range (l.length / n)).map fun i => (l.drop (i * n)).take n

/-- node.rs: the CompactNodes visitor: reject lengths divisible by
neither 26 nor 38, prefer the v4 reading when divisible by 26. -/
def parseCompactNodesBuf (v : ByteStr) : Option (List Node) :=
  if v.length % 26 ≠ 0 ∧ v.length % 38 ≠ 0 then none
  else if v.length % 26 = 0 then some ((chunksOf 26 v).map nodeFromBytes)
  else some ((chunksOf 38 v).map nodeFromBytes)

/-- CompactNodes field: a byte string then the visitor. -/
def parseCompactNodes (s : ByteStr) : Option (List Node × ByteStr) :=
  (parseBytes s).bind fun p => (parseCompactNodesBuf p.1).map fun l => (l, p.2)

/-- address.rs: the CompactAddresses visitor.  The guard uses an or
where the nodes visitor uses an and, so only lengths divisible by both
6 and 18 are accepted, and the v4 branch then always applies. -/
def parseCompactAddressesBuf (v : ByteStr) : Option (List PeerAddress) :=
  if v.length % 6 ≠ 0 ∨ v.length % 18 ≠ 0 then none
  else if v.length % 6 = 0 then some ((chunksOf 6 v).map peerAddressFromBytes)
  else some ((chunksOf 18 v).map peerAddressFromBytes)

/-- CompactAddresses field: a byte string then the visitor. -/
def parseCompactAddresses (s : ByteStr) : Option (List PeerAddress × ByteStr) :=
  (parseBytes s).bind fun p => (parseCompactAddressesBuf p.1).map fun l => (l, p.2)

/-- Vec of String: list elements, each a byte string. -/
def parseWantItems : Nat → ByteStr → Option (List ByteStr × ByteStr)
  | 0, _ => none
  | fuel + 1, s =>
    match s with
    | [] => none
    | c :: rest =>
      if c = 101 then some ([], rest)
      else
        (parseBytes (c :: rest)).bind fun p =>
        (parseWantItems fuel p.2).map fun q => (p.1 :: q.1, q.2)

/-- deserialize_seq for the want field: an l then the elements. -/
def parseWant (fuel : Nat) : ByteStr → Option (List ByteStr × ByteStr)
  | 108 :: rest => parseWantItems fuel rest
  | _ => none

/-- error.rs: the Deserialize impl for KrpcError: a list of exactly an
i64 and a string (a third element or a non-e continuation is an
error). -/
def parseKrpcError (s : ByteStr) : Option (KrpcError × ByteStr) :=
  match s with
  | 108 :: rest =>
    match rest with
    | 101 :: _ => none
    | _ =>
      (parseI64 rest).bind fun pc =>
      match pc.2 with
      | 101 :: _ => none
      | _ =>
        (parseBytes pc.2).bind fun pd =>
        match pd.2 with
        | 101 :: r2 => some (⟨pc.1, pd.1⟩, r2)
        | _ => none
  | _ => none

/-- Partial field state of the serde-derived KrpcQuery visitor. -/
structure QueryAcc where
  id : Option HashPiece
  target : Option HashPiece
  info_hash : Option HashPiece
  port : Option Nat
  token : Option BValue
  implied_port : Option Bool
  want : Option (List ByteStr)
deriving DecidableEq, Repr

/-- The visitor's initial state: nothing seen. -/
def QueryAcc.empty : QueryAcc := ⟨none, none, none, none, none, none, none⟩

/-- The serde-derived KrpcQuery map visitor: identifiers matched by
name, duplicates rejected, unknown keys ignored (a Value is parsed and
dropped), id required at the end, missing options default (want to the
empty list). -/
def parseQueryFields : Nat → QueryAcc → ByteStr → Option (KrpcQuery × ByteStr)
  | 0, _, _ => none
  | fuel + 1, acc, s =>
    match s with
    | [] => none
    | c :: rest =>
      if c = 101 then
        match acc.id with
        | some id =>
          some (⟨id, acc.target, acc.info_hash, acc.port, acc.token, acc.implied_port,
            acc.want.getD []⟩, rest)
        | none => none
      else
        (parseBytes (c :: rest)).bind fun pk =>
          if pk.1 = [105, 100] then
            if acc.id.isSome then none else
            (parseHashPiece pk.2).bind fun p =>
              parseQueryFields fuel { acc with id := some p.1 } p.2
          else if pk.1 = [116, 97, 114, 103, 101, 116] then
            if acc.target.isSome then none else
            (parseHashPiece pk.2).bind fun p =>
              parseQueryFields fuel { acc with target := some p.1 } p.2
          else if pk.1 = [105, 110, 102, 111, 95, 104, 97, 115, 104] then
            if acc.info_hash.isSome then none else
            (parseHashPiece pk.2).bind fun p =>
              parseQueryFields fuel { acc with info_hash := some p.1 } p.2
          else if pk.1 = [112, 111, 114, 116] then
            if acc.port.isSome then none else
            (parseU16 pk.2).bind fun p =>
              parseQueryFields fuel { acc with port := some p.1 } p.2
          else if pk.1 = [116, 111, 107, 101, 110] then
            if acc.token.isSome then none else
            (parseBValue fuel pk.2).bind fun p =>
              parseQueryFields fuel { acc with token := some p.1 } p.2
          else if pk.1 = [105, 109, 112, 108, 105, 101, 100, 95, 112, 111, 114, 116] then
            if acc.implied_port.isSome then none else
            (parseBool pk.2).bind fun p =>
              parseQueryFields fuel { acc with implied_port := some p.1 } p.2
          else if pk.1 = [119, 97, 110, 116] then
            if acc.want.isSome then none else
            (parseWant fuel pk.2).bind fun p =>
              parseQueryFields fuel { acc with want := some p.1 } p.2
          else
            (parseBValue fuel pk.2).bind fun p => parseQueryFields fuel acc p.2

/-- KrpcQuery::deserialize: deserialize_struct goes through
deserialize_map, which requires a d. -/
def parseKrpcQueryStruct (fuel : Nat) : ByteStr → Option (KrpcQuery × ByteStr)
  | 100 :: rest => parseQueryFields fuel QueryAcc.empty rest
  | _ => none

/-- Partial field state of the serde-derived KrpcResponse visitor. -/
structure RespAcc where
  id : Option HashPiece
  nodes : Option (List Node)
  nodes6 : Option (List Node)
  token : Option BValue
  values : Option (List PeerAddress)
deriving DecidableEq, Repr

/-- The visitor's initial state: nothing seen. -/
def RespAcc.empty : RespAcc := ⟨none, none, none, none, none⟩

/-- The serde-derived KrpcResponse map visitor. -/
def parseRespFields : Nat → RespAcc → ByteStr → Option (KrpcResponse × ByteStr)
  | 0, _, _ => none
  | fuel + 1, acc, s =>
    match s with
    | [] => none
    | c :: rest =>
      if c = 101 then
        match acc.id with
        | some id => some (⟨id, acc.nodes, acc.nodes6, acc.token, acc.values⟩, rest)
        | none => none
      else
        (parseBytes (c :: rest)).bind fun pk =>
          if pk.1 = [105, 100] then
            if acc.id.isSome then none else
            (parseHashPiece pk.2).bind fun p =>
              parseRespFields fuel { acc with id := some p.1 } p.2
          else if pk.1 = [110, 111, 100, 101, 115] then
            if acc.nodes.isSome then none else
            (parseCompactNodes pk.2).bind fun p =>
              parseRespFields fuel { acc with nodes := some p.1 } p.2
          else if pk.1 = [110, 111, 100, 101, 115, 54] then
            if acc.nodes6.isSome then none else
            (parseCompactNodes pk.2).bind fun p =>
              parseRespFields fuel { acc with nodes6 := some p.1 } p.2
          else if pk.1 = [116, 111, 107, 101, 110] then
            if acc.token.isSome then none else
            (parseBValue fuel pk.2).bind fun p =>
              parseRespFields fuel { acc with token := some p.1 } p.2
          else if pk.1 = [118, 97, 108, 117, 101, 115] then
            if acc.values.isSome then none else
            (parseCompactAddresses pk.2).bind fun p =>
              parseRespFields fuel { acc with values := some p.1 } p.2
          else
            (parseBValue fuel pk.2).bind fun p => parseRespFields fuel acc p.2

/-- KrpcResponse::deserialize. -/
def parseKrpcRespStruct (fuel : Nat) : ByteStr → Option (KrpcResponse × ByteStr)
  | 100 :: rest => parseRespFields fuel RespAcc.empty rest
  | _ => none

/-- Partial field state of the serde-derived KrpcMessage visitor. -/
structure MsgAcc where
  t : Option ByteStr
  y : Option MessageType
  q : Option QueryType
  a : Option KrpcQuery
  r : Option KrpcResponse
  e : Option KrpcError
  ro : Option Bool
deriving DecidableEq, Repr

/-- The visitor's initial state: nothing seen. -/
def MsgAcc.empty : MsgAcc := ⟨none, none, none, none, none, none, none⟩

/-- The serde-derived KrpcMessage map visitor: t and y required,
everything else optional, unknown keys ignored. -/
def parseMessageFields : Nat → MsgAcc → ByteStr → Option (KrpcMessage × ByteStr)
  | 0, _, _ => none
  | fuel + 1, acc, s =>
    match s with
    | [] => none
    | c :: rest =>
      if c = 101 then
        match acc.t, acc.y with
        | some t, some y => some (⟨t, y, acc.q, acc.a, acc.r, acc.e, acc.ro⟩, rest)
        | _, _ => none
      else
        (parseBytes (c :: rest)).bind fun pk =>
          if pk.1 = [116] then
            if acc.t.isSome then none else
            (parseBytes pk.2).bind fun p =>
              parseMessageFields fuel { acc with t := some p.1 } p.2
          else if pk.1 = [121] then
            if acc.y.isSome then none else
            (parseMessageType pk.2).bind fun p =>
              parseMessageFields fuel { acc with y := some p.1 } p.2
          else if pk.1 = [113] then
            if acc.q.isSome then none else
            (parseQueryType pk.2).bind fun p =>
              parseMessageFields fuel { acc with q := some p.1 } p.2
          else if pk.1 = [97] then
            if acc.a.isSome then none else
            (parseKrpcQueryStruct fuel pk.2).bind fun p =>
              parseMessageFields fuel { acc with a := some p.1 } p.2
          else if pk.1 = [114] then
            if acc.r.isSome then none else
            (parseKrpcRespStruct fuel pk.2).bind fun p =>
              parseMessageFields fuel { acc with r := some p.1 } p.2
          else if pk.1 = [101] then
            if acc.e.isSome then none else
            (parseKrpcError pk.2).bind fun p =>
              parseMessageFields fuel { acc with e := some p.1 } p.2
          else if pk.1 = [114, 111] then
            if acc.ro.isSome then none else
            (parseBool pk.2).bind fun p =>
              parseMessageFields fuel { acc with ro := some p.1 } p.2
          else
            (parseBValue fuel pk.2).bind fun p => parseMessageFields fuel acc p.2

/-- KrpcMessage::deserialize. -/
def parseKrpcMessage (fuel : Nat) : ByteStr → Option (KrpcMessage × ByteStr)
  | 100 :: rest => parseMessageFields fuel MsgAcc.empty rest
  | _ => none

/-- de.rs from_bytes for KrpcMessage.  Trailing bytes after the message
are not inspected (the deserializer stops at the closing e).  The fuel
2 * length + 2 over-approximates the recursion depth of any input (each
nesting level or loop iteration consumes input). -/
def fromBytesKrpcMessage (s : ByteStr) : Option KrpcMessage :=
  (parseKrpcMessage (2 * s.length + 2) s).map fun p => p.1

/-! ## Well-formedness classes for the KRPC round trip (claim C9) -/

/-- A predicate lifted over an optional value (holds of none). -/
def optPred (P : α → Prop) : Option α → Prop
  | none => True
  | some x => P x

instance (P : α → Prop) [DecidablePred P] : (o : Option α) → Decidable (optPred P o)
  | none => inferInstanceAs (Decidable True)
  | some x => inferInstanceAs (Decidable (P x))

/-- A well-formed IPv4 peer address: four octets below 256, u16 port. -/
def addrWfV4 (a : PeerAddress) : Prop :=
  match a.ip with
  | .v4 o => o.length = 4 ∧ (∀ b ∈ o, b < 256) ∧ a.port < 65536
  | .v6 _ => False

instance : (a : PeerAddress) → Decidable (addrWfV4 a)
  | ⟨.v4 o, p⟩ => inferInstanceAs (Decidable (_ ∧ _ ∧ _))
  | ⟨.v6 _, _⟩ => inferInstanceAs (Decidable False)

/-- A well-formed IPv6 peer address: sixteen octets below 256, u16 port. -/
def addrWfV6 (a : PeerAddress) : Prop :=
  match a.ip with
  | .v4 _ => False
  | .v6 o => o.length = 16 ∧ (∀ b ∈ o, b < 256) ∧ a.port < 65536

instance : (a : PeerAddress) → Decidable (addrWfV6 a)
  | ⟨.v4 _, _⟩ => inferInstanceAs (Decidable False)
  | ⟨.v6 o, p⟩ => inferInstanceAs (Decidable (_ ∧ _ ∧ _))

/-- A well-formed v4 node record. -/
def nodeWfV4 (n : Node) : Prop :=
  n.id.wf ∧ addrWfV4 n.peer_address

instance (n : Node) : Decidable (nodeWfV4 n) := inferInstanceAs (Decidable (_ ∧ _))

/-- A well-formed v6 node record. -/
def nodeWfV6 (n : Node) : Prop :=
  n.id.wf ∧ addrWfV6 n.peer_address

instance (n : Node) : Decidable (nodeWfV6 n) := inferInstanceAs (Decidable (_ ∧ _))

/-- A token per the spec: an opaque byte string (of i64-encodable
length, which every real token has). -/
def tokenWf : Option BValue → Prop
  | none => True
  | some (.bytes b) => b.length ≤ I64MAX
  | some (.int _) => False
  | some (.list _) => False
  | some (.dict _) => False

instance : (o : Option BValue) → Decidable (tokenWf o)
  | none => inferInstanceAs (Decidable True)
  | some (.bytes b) => inferInstanceAs (Decidable (b.length ≤ I64MAX))
  | some (.int _) => inferInstanceAs (Decidable False)
  | some (.list _) => inferInstanceAs (Decidable False)
  | some (.dict _) => inferInstanceAs (Decidable False)

/-- Modelled from the spec: a query's argument dictionary populated with
recognized fields only - 20-byte ids, u16 port, opaque byte-string
token, want a subset of n4 and n6. -/
def KrpcQueryWellFormed (q : KrpcQuery) : Prop :=
  q.id.wf ∧ optPred HashPiece.wf q.target ∧ optPred HashPiece.wf q.info_hash ∧
  optPred (fun p => p < 65536) q.port ∧ tokenWf q.token ∧
  ∀ x ∈ q.want, x = [110, 52] ∨ x = [110, 54]

instance (q : KrpcQuery) : Decidable (KrpcQueryWellFormed q) :=
  inferInstanceAs (Decidable (_ ∧ _ ∧ _ ∧ _ ∧ _ ∧ _))

/-- Modelled from the spec: a response dictionary populated with
recognized fields only - nodes a v4 compact list, nodes6 a v6 compact
list, values a compact peer list, token opaque bytes.  Each list is of
i64-encodable total compact length, which every real list has. -/
def KrpcResponseWellFormed (r : KrpcResponse) : Prop :=
  r.id.wf ∧ optPred (fun l => (∀ n ∈ l, nodeWfV4 n) ∧ l.length * 38 ≤ I64MAX) r.nodes ∧
  optPred (fun l => (∀ n ∈ l, nodeWfV6 n) ∧ l.length * 38 ≤ I64MAX) r.nodes6 ∧ tokenWf r.token ∧
  optPred (fun l => (∀ a ∈ l, addrWfV4 a ∨ addrWfV6 a) ∧ l.length * 18 ≤ I64MAX) r.values

instance (r : KrpcResponse) : Decidable (KrpcResponseWellFormed r) :=
  inferInstanceAs (Decidable (_ ∧ _ ∧ _ ∧ _ ∧ _))

/-- Modelled from the spec: an error value with a recognized code and a
description string. -/
def KrpcErrorWellFormed (e : KrpcError) : Prop :=
  e.code ∈ ([201, 202, 203, 204, 205, 206, 207, 301, 302] : List Int) ∧
  e.desc.length ≤ I64MAX

instance (e : KrpcError) : Decidable (KrpcErrorWellFormed e) :=
  inferInstanceAs (Decidable (_ ∧ _))

/-- The claim's shape requirement on the top-level fields: a query has q
and a, a response has r, an error has e, and no foreign payload. -/
def yShapeWf : MessageType → Option QueryType → Option KrpcQuery → Option KrpcResponse →
    Option KrpcError → Prop
  | .query, q, a, r, e => q.isSome = true ∧ a.isSome = true ∧ r = none ∧ e = none
  | .response, q, a, r, e => r.isSome = true ∧ q = none ∧ a = none ∧ e = none
  | .error, q, a, r, e => e.isSome = true ∧ q = none ∧ a = none ∧ r = none

instance : (y : MessageType) → (q : Option QueryType) → (a : Option KrpcQuery) →
    (r : Option KrpcResponse) → (e : Option KrpcError) → Decidable (yShapeWf y q a r e)
  | .query, _, _, _, _ => inferInstanceAs (Decidable (_ ∧ _ ∧ _ ∧ _))
  | .response, _, _, _, _ => inferInstanceAs (Decidable (_ ∧ _ ∧ _ ∧ _))
  | .error, _, _, _, _ => inferInstanceAs (Decidable (_ ∧ _ ∧ _ ∧ _))

/-- Modelled from the spec: claim C9's class of well-formed KRPC
messages - a query with q and a, a response with r, or an error with e,
each populated with recognized fields only. -/
def KrpcMessageWellFormed (m : KrpcMessage) : Prop :=
  m.t.length ≤ I64MAX ∧ yShapeWf m.y m.q m.a m.r m.e ∧
  optPred KrpcQueryWellFormed m.a ∧ optPred KrpcResponseWellFormed m.r ∧
  optPred KrpcErrorWellFormed m.e

instance (m : KrpcMessage) : Decidable (KrpcMessageWellFormed m) :=
  inferInstanceAs (Decidable (_ ∧ _ ∧ _ ∧ _ ∧ _))

/-- The amendment C9 needs: the compact-length classes the decoder
mishandles are avoided - values all-IPv4 with a multiple-of-three count
(so its byte length is divisible by 18 as the or-guard demands), and
nodes6 with a node count not a multiple of 13 (so its byte length is
not divisible by 26 and the v4 reading is not taken). -/
def RoundTripSafe (m : KrpcMessage) : Prop :=
  optPred (fun r =>
    optPred (fun l => (∀ a ∈ l, addrWfV4 a) ∧ l.length % 3 = 0) r.values ∧
    optPred (fun l : List Node => l.length % 13 ≠ 0 ∨ l = []) r.nodes6) m.r

instance (m : KrpcMessage) : Decidable (RoundTripSafe m) := by
  unfold RoundTripSafe
  infer_instance

/-- The repository's ping unit-test message (message.rs test vector). -/
def msgC9ping : KrpcMessage :=
  ⟨[97, 97], .query, some .ping,
    some ⟨⟨[97, 98, 99, 100, 101, 102, 103, 104, 105, 106, 48, 49, 50, 51, 52, 53, 54, 55,
      56, 57]⟩, none, none, none, none, none, []⟩, none, none, none⟩

/-- A response carrying a single IPv4 peer in values; its 6-byte compact
form is rejected by the CompactAddresses or-guard on decode. -/
def msgC9 : KrpcMessage :=
  ⟨[97, 97], .response, none, none,
    some ⟨⟨[97, 98, 99, 100, 101, 102, 103, 104, 105, 106, 48, 49, 50, 51, 52, 53, 54, 55,
      56, 57]⟩, none, none, none, some [⟨.v4 [1, 2, 3, 4], 80⟩]⟩, none, none⟩

/-! ## Theorems: popCount and count_ones facts -/

theorem popCountAux_congr : ∀ (f g n : Nat), n ≤ f → n ≤ g → popCountAux f n = popCountAux g n := by
  intro f
  induction f with
  | zero =>
    intro g n hf _
    interval_cases n
    cases g <;> simp [popCountAux]
  | succ f ih =>
    intro g n hf hg
    cases g with
    | zero =>
      interval_cases n
      simp [popCountAux]
    | succ g =>
      by_cases h0 : n = 0
      · simp [popCountAux, h0]
      · simp only [popCountAux, h0, if_false]
        have hlt : n / 2 < n := Nat.div_lt_self (by omega) (by omega)
        rw [ih g (n / 2) (by omega) (by omega)]

theorem popCount_div2 (n : Nat) (h : n ≠ 0) : popCount n = n % 2 + popCount (n / 2) := by
  unfold popCount
  cases n with
  | zero => exact absurd rfl h
  | succ m =>
    simp only [popCountAux, h, if_false]
    congr 1
    exact popCountAux_congr m ((m + 1) / 2) ((m + 1) / 2) (by omega) le_rfl

theorem popCount_ne_zero : ∀ (n : Nat), n ≠ 0 → popCount n ≠ 0 := by
  intro n
  induction n using Nat.strong_induction_on with
  | _ n ih =>
    intro h
    rw [popCount_div2 n h]
    by_cases h2 : n % 2 = 0
    · have hd : n / 2 ≠ 0 := by omega
      have := ih (n / 2) (Nat.div_lt_self (by omega) (by omega)) hd
      omega
    · omega

theorem count_ones_foldl (l : ByteStr) :
    ∀ acc, l.foldl (fun res b => popCount b + res) acc = (l.map popCount).sum + acc := by
  induction l with
  | nil => intro acc; simp
  | cons b rest ih => intro acc; simp [List.foldl_cons, ih]; omega

theorem count_ones_eq_sum (h : HashPiece) :
    h.count_ones = (h.bytes.map popCount).sum := by
  unfold HashPiece.count_ones
  rw [count_ones_foldl]
  omega

theorem zip_xor_zero_imp_eq :
    ∀ (xs ys : List Nat), xs.length = ys.length →
      (∀ b ∈ List.zipWith Nat.xor xs ys, b = 0) → xs = ys := by
  intro xs
  induction xs with
  | nil => intro ys h _; cases ys with | nil => rfl | cons => simp at h
  | cons x xt ih =>
    intro ys h hz
    cases ys with
    | nil => simp at h
    | cons y yt =>
      have hx : Nat.xor x y = 0 := hz _ (by simp [List.zipWith])
      have hxy : x = y := Nat.xor_eq_zero.mp hx
      have : xt = yt := ih yt (by simpa using h) (fun b hb => hz b (by simp [List.zipWith, hb]))
      rw [hxy, this]

theorem count_ones_xor_pos (x s : HashPiece) (hx : x.wf) (hs : s.wf) (hne : x ≠ s) :
    1 ≤ (HashPiece.xor x s).count_ones := by
  rw [count_ones_eq_sum]
  by_contra hcon
  push_neg at hcon
  have hz : ((HashPiece.xor x s).bytes.map popCount).sum = 0 := by omega
  have hall : ∀ b ∈ (HashPiece.xor x s).bytes, b = 0 := by
    intro b hb
    by_contra hb0
    have hp := popCount_ne_zero b hb0
    have hmem : popCount b ∈ (HashPiece.xor x s).bytes.map popCount := List.mem_map_of_mem _ hb
    have := (List.sum_eq_zero_iff.mp hz) _ hmem
    exact hp this
  have hlen : x.bytes.length = s.bytes.length := by
    rcases hx with ⟨h1, _⟩; rcases hs with ⟨h2, _⟩; omega
  have : x.bytes = s.bytes := zip_xor_zero_imp_eq x.bytes s.bytes hlen hall
  exact hne (by cases x; cases s; simpa using this)

/-! ## Claim C8 -/

/-- C8: inserting a node whose id equals the self id is a safe no-op: the
routing table is returned unchanged and no panic branch is reached; and
for every well-formed pair of distinct ids the count of one bits of the
xor is at least one, so the unsigned subtraction in the bucket-index
computation never underflows. -/
theorem claim_C8_theorem :
    (∀ (t : RoutingTable) (now : Nat) (node : Node), node.id = t.id →
        RoutingTable.insert t now node = some t) ∧
    (∀ (x s : HashPiece), x.wf → s.wf → x ≠ s → 1 ≤ (HashPiece.xor x s).count_ones) := by
  constructor
  · intro t now node h
    simp [RoutingTable.insert, h]
  · exact count_ones_xor_pos

theorem claim_C8_witness :
    RoutingTable.insert tblC1 5 (Node.mk zeroId addrA) = some tblC1 ∧
    1 ≤ (HashPiece.xor oneId zeroId).count_ones :=
  ⟨claim_C8_theorem.1 tblC1 5 (Node.mk zeroId addrA) (by decide),
   claim_C8_theorem.2 oneId zeroId (by decide) (by decide) (by decide)⟩

/-! ## Claim C1 -/

theorem Bucket.insert_mem {b : Bucket} {now : Nat} {node : Node} {ne : NodeExt}
    (h : ne ∈ (b.insert now node).1.nodes) :
    ne.node.id = node.id ∨ ne ∈ b.nodes := by
  unfold Bucket.insert at h
  by_cases hany : (b.nodes.any fun ne => decide (ne.node.id = node.id)) = true
  · simp only [hany, if_true] at h
    rcases List.mem_map.mp h with ⟨x, hx, himg⟩
    by_cases hid : x.node.id = node.id
    · left; rw [← himg]; simp [hid]
    · right; rw [← himg]; simpa [hid] using hx
  · simp only [hany, if_false] at h
    by_cases hlen : (b.nodes.filter fun ne => !ne.is_dead).length < b.k
    · simp only [hlen, if_true] at h
      rcases List.mem_append.mp h with hmem | hmem
      · right; exact (List.mem_filter.mp hmem).1
      · left; simp only [List.mem_singleton] at hmem; rw [hmem]; rfl
    · simp only [hlen, if_false] at h
      right; exact (List.mem_filter.mp h).1

theorem RoutingTable.insert_preserves_bucketInv {t tt : RoutingTable} {now : Nat} {node : Node}
    (hins : t.insert now node = some tt) (hinv : t.bucketInv) : tt.bucketInv := by
  unfold RoutingTable.insert at hins
  by_cases hid : node.id = t.id
  · simp only [hid, if_pos rfl] at hins
    cases hins; exact hinv
  · simp only [if_neg hid] at hins
    by_cases hz : (HashPiece.xor node.id t.id).count_ones = 0
    · simp [hz] at hins
    · simp only [hz, if_false] at hins
      by_cases hlt : (HashPiece.xor node.id t.id).count_ones - 1 < t.buckets.length
      · rw [dif_pos hlt] at hins
        cases hins
        intro i hi ne hne
        simp only at hne hi
        rw [List.length_set] at hi
        by_cases hieq : i = (HashPiece.xor node.id t.id).count_ones - 1
        · subst hieq
          rw [List.get_set_eq] at hne
          · rcases Bucket.insert_mem hne with hcase | hcase
            · simp [hcase]
            · exact hinv _ hlt ne hcase
        · rw [List.get_set_ne] at hne
          · exact hinv i hi ne hne
          · omega
      · rw [dif_neg hlt] at hins
        cases hins

theorem RoutingTable.insertAll_preserves_bucketInv :
    ∀ (ops : List (Nat × Node)) (t tt : RoutingTable),
      t.bucketInv → t.insertAll ops = some tt → tt.bucketInv := by
  intro ops
  induction ops with
  | nil => intro t tt hinv h; cases h; exact hinv
  | cons op rest ih =>
    intro t tt hinv h
    unfold RoutingTable.insertAll at h
    rcases Option.bind_eq_some.mp h with ⟨t1, h1, h2⟩
    exact ih t1 tt (RoutingTable.insert_preserves_bucketInv h1 hinv) h2

theorem RoutingTable.new_bucketInv (id : HashPiece) (k qi now : Nat) :
    (RoutingTable.new id k qi now).bucketInv := by
  intro i hi ne hne
  unfold RoutingTable.new at hne
  simp only at hne
  rw [List.get_replicate] at hne
  simp [Bucket.new] at hne

/-- C1 (amended): after any sequence of inserts into a fresh routing
table, every stored node resides in the bucket indexed by
count_ones(id XOR self) - 1 (not by the leading-zero count the claim
states). -/
theorem claim_C1_theorem (id : HashPiece) (k qi now : Nat) (ops : List (Nat × Node))
    (tt : RoutingTable) (h : (RoutingTable.new id k qi now).insertAll ops = some tt) :
    tt.bucketInv :=
  RoutingTable.insertAll_preserves_bucketInv ops _ tt (RoutingTable.new_bucketInv id k qi now) h

set_option maxRecDepth 10000 in
theorem claim_C1_witness :
    RoutingTable.bucketInv (((RoutingTable.new zeroId 8 900 0).insertAll [(0, nodeC1)]).getD
      (RoutingTable.new zeroId 8 900 0)) :=
  claim_C1_theorem zeroId 8 900 0 [(0, nodeC1)] _ (by decide)

set_option maxRecDepth 10000 in
/-- C1 counterexample: inserting a node at xor distance with a single
one bit in the least significant position stores it in bucket 0, while
the claim's leading-zero-count policy names bucket 159. -/
theorem claim_C1_counterexample :
    (RoutingTable.insert tblC1 0 nodeC1).map (fun t =>
      (List.range t.buckets.length).filter fun i =>
        (t.buckets.getD i (Bucket.new 0 0 0)).nodes.any fun ne => decide (ne.node.id = nodeC1.id))
      = some [0] ∧
    leadingZeroCount (HashPiece.xor nodeC1.id tblC1.id) = 159 := by
  constructor
  · decide
  · decide

/-! ## Claim C3 -/

/-- C3 (amended): closest returns at most max nodes, every returned node
passes the filter, and the result is sorted ascending by count_ones of
the xor distance to the target (the code's key), not by the
lexicographic xor distance the claim states. -/
theorem claim_C3_theorem (t : RoutingTable) (target : HashPiece) (max : Nat) (f : Node → Bool) :
    (t.closest target max f).length ≤ max ∧
    (∀ n ∈ t.closest target max f, f n = true) ∧
    List.Sorted (fun a b => nodeKey target a ≤ nodeKey target b) (t.closest target max f) := by
  haveI : IsTotal Node (fun a b => nodeKey target a ≤ nodeKey target b) :=
    ⟨fun a b => Nat.le_total _ _⟩
  haveI : IsTrans Node (fun a b => nodeKey target a ≤ nodeKey target b) :=
    ⟨fun a b c => Nat.le_trans⟩
  refine ⟨?_, ?_, ?_⟩
  · simpa [RoutingTable.closest] using List.length_take_le _ _
  · intro n hn
    unfold RoutingTable.closest at hn
    have hn2 := List.mem_of_mem_take hn
    have hn3 := (List.perm_insertionSort _ _).mem_iff.mp hn2
    rcases List.mem_flatMap.mp hn3 with ⟨b, _, hmem⟩
    rcases List.mem_map.mp hmem with ⟨ne, hne, rfl⟩
    exact (List.mem_filter.mp hne).2
  · unfold RoutingTable.closest
    exact (List.sorted_insertionSort _ _).sublist (List.take_sublist _ _)

set_option maxRecDepth 10000 in
/-- C3 counterexample: on a concrete table, closest returns the weight-1
node before the weight-2 node although the latter is lexicographically
closer to the target, so the result is not sorted by xor distance. -/
theorem claim_C3_counterexample :
    RoutingTable.closest tblC3 zeroId 8 (fun _ => true) = [nodeA, nodeB] ∧
    bytesLexLt (HashPiece.xor nodeB.id zeroId).bytes (HashPiece.xor nodeA.id zeroId).bytes
      = true := by
  constructor
  · decide
  · decide

/-! ## Claim C7 -/

theorem countId_map_of_id_eq (f : NodeExt → NodeExt) (hf : ∀ x, (f x).node.id = x.node.id) :
    ∀ (ns : List NodeExt) (key : HashPiece), countId (ns.map f) key = countId ns key := by
  intro ns key
  induction ns with
  | nil => rfl
  | cons x xs ih =>
    simp only [countId, List.map_cons, List.filter_cons] at ih ⊢
    rw [hf x]
    by_cases hp : x.node.id = key
    · simp only [hp, decide_True, if_true, List.length_cons]
      omega
    · simp only [hp, decide_False, Bool.false_eq_true, if_false]
      exact ih

theorem updEntry_id (now : Nat) (node : Node) (x : NodeExt) :
    ((if decide (x.node.id = node.id) then (⟨now, node, 0⟩ : NodeExt) else x)).node.id
      = x.node.id := by
  by_cases h : x.node.id = node.id
  · simp [h]
  · simp [h]

theorem countId_eq_zero_of_not_mem (ns : List NodeExt) (key : HashPiece)
    (h : ∀ ne ∈ ns, ne.node.id ≠ key) : countId ns key = 0 := by
  induction ns with
  | nil => rfl
  | cons x xs ih =>
    simp only [countId, List.filter_cons]
    have hx : x.node.id ≠ key := h x (by simp)
    simp only [hx, decide_False, Bool.false_eq_true, if_false]
    exact ih fun ne hne => h ne (by simp [hne])

theorem countId_le_one_of_nodup (ns : List NodeExt) (key : HashPiece)
    (h : (ns.map fun ne => ne.node.id).Nodup) : countId ns key ≤ 1 := by
  induction ns with
  | nil => simp [countId]
  | cons x xs ih =>
    simp only [List.map_cons, List.nodup_cons] at h
    simp only [countId, List.filter_cons]
    by_cases hx : x.node.id = key
    · have hz : countId xs key = 0 := by
        apply countId_eq_zero_of_not_mem
        intro ne hne hk
        exact h.1 (by rw [hx, ← hk]; exact List.mem_map_of_mem _ hne)
      simp only [hx, decide_True, if_true, List.length_cons]
      simp only [countId] at hz
      omega
    · simp only [hx, decide_False, Bool.false_eq_true, if_false]
      exact ih h.2

theorem countId_pos_of_any (ns : List NodeExt) (key : HashPiece)
    (h : (ns.any fun ne => decide (ne.node.id = key)) = true) : 1 ≤ countId ns key := by
  rcases List.any_eq_true.mp h with ⟨ne, hmem, hp⟩
  have hmem2 : ne ∈ ns.filter fun ne => decide (ne.node.id = key) :=
    List.mem_filter.mpr ⟨hmem, hp⟩
  have := List.length_pos.mpr (List.ne_nil_of_mem hmem2)
  simp only [countId]
  omega

theorem countId_any (ns : List NodeExt) (key : HashPiece) (h : 1 ≤ countId ns key) :
    (ns.any fun ne => decide (ne.node.id = key)) = true := by
  simp only [countId] at h
  have hne : (ns.filter fun ne => decide (ne.node.id = key)) ≠ [] := by
    intro hnil; rw [hnil] at h; simp at h
  rcases List.exists_mem_of_ne_nil _ hne with ⟨ne, hmem⟩
  rcases List.mem_filter.mp hmem with ⟨h1, h2⟩
  exact List.any_eq_true.mpr ⟨ne, h1, h2⟩

theorem countId_append (xs ys : List NodeExt) (key : HashPiece) :
    countId (xs ++ ys) key = countId xs key + countId ys key := by
  simp [countId, List.filter_append]

theorem updEntry_unique (now : Nat) (node : Node) (ns : List NodeExt) :
    ∀ ne ∈ ns.map (fun x => if decide (x.node.id = node.id) then (⟨now, node, 0⟩ : NodeExt) else x),
      ne.node.id = node.id → ne = ⟨now, node, 0⟩ := by
  intro ne hne hid
  rcases List.mem_map.mp hne with ⟨x, hx, himg⟩
  by_cases h : x.node.id = node.id
  · rw [← himg]; simp [h]
  · rw [← himg] at hid
    simp only [h, decide_False, Bool.false_eq_true, if_false] at hid

theorem Bucket.insert_nodes_update (b : Bucket) (now : Nat) (node : Node)
    (hany : (b.nodes.any fun ne => decide (ne.node.id = node.id)) = true) :
    (b.insert now node).1.nodes
      = b.nodes.map fun ne => if decide (ne.node.id = node.id) then ⟨now, node, 0⟩ else ne := by
  unfold Bucket.insert
  rw [if_pos hany]

theorem Bucket.insert_nodes_append (b : Bucket) (now : Nat) (node : Node)
    (hany : ¬ (b.nodes.any fun ne => decide (ne.node.id = node.id)) = true)
    (hroom : (b.nodes.filter fun ne => !ne.is_dead).length < b.k) :
    (b.insert now node).1.nodes
      = (b.nodes.filter fun ne => !ne.is_dead) ++ [⟨now, node, 0⟩] := by
  unfold Bucket.insert
  rw [if_neg hany, if_pos hroom]
  rfl

/-- C7 (amended): if the node id is already present, or the bucket has
room after evicting dead entries, then insert(n) followed by insert(n')
with the same id leaves exactly one record for that id, carrying n',
the second insertion time and a zero strike counter.  (For a full bucket
of live nodes and a fresh id the claim fails: both insertions are
silently dropped.) -/
theorem claim_C7_theorem (b : Bucket) (now1 now2 : Nat) (n nn : Node)
    (hwf : b.wf) (hid : nn.id = n.id)
    (hroom : (b.nodes.any fun ne => decide (ne.node.id = n.id)) = true
      ∨ (b.nodes.filter fun ne => !ne.is_dead).length < b.k) :
    countId ((b.insert now1 n).1.insert now2 nn).1.nodes n.id = 1 ∧
    ∀ ne ∈ ((b.insert now1 n).1.insert now2 nn).1.nodes,
      ne.node.id = n.id → ne = ⟨now2, nn, 0⟩ := by
  by_cases hany1 : (b.nodes.any fun ne => decide (ne.node.id = n.id)) = true
  · have hb1 : (b.insert now1 n).1.nodes
        = b.nodes.map fun ne => if decide (ne.node.id = n.id) then ⟨now1, n, 0⟩ else ne :=
      Bucket.insert_nodes_update b now1 n hany1
    have hc1 : countId (b.insert now1 n).1.nodes n.id = countId b.nodes n.id := by
      rw [hb1]; exact countId_map_of_id_eq _ (updEntry_id now1 n) b.nodes n.id
    have hpos : 1 ≤ countId (b.insert now1 n).1.nodes n.id := by
      rw [hc1]; exact countId_pos_of_any _ _ hany1
    have hany2 : ((b.insert now1 n).1.nodes.any fun ne => decide (ne.node.id = nn.id)) = true := by
      rw [hid]; exact countId_any _ _ hpos
    have hb2 : ((b.insert now1 n).1.insert now2 nn).1.nodes
        = (b.insert now1 n).1.nodes.map
            fun ne => if decide (ne.node.id = nn.id) then ⟨now2, nn, 0⟩ else ne :=
      Bucket.insert_nodes_update _ now2 nn hany2
    constructor
    · rw [hb2, countId_map_of_id_eq _ (updEntry_id now2 nn), hc1]
      have hle : countId b.nodes n.id ≤ 1 := countId_le_one_of_nodup _ _ hwf
      have := countId_pos_of_any _ _ hany1
      omega
    · intro ne hne hkey
      rw [hb2] at hne
      exact updEntry_unique now2 nn _ ne hne (by rw [hid]; exact hkey)
  · have hall : ∀ ne ∈ b.nodes, ne.node.id ≠ n.id := by
      intro ne hne hk
      exact hany1 (List.any_eq_true.mpr ⟨ne, hne, by simp [hk]⟩)
    have hroom2 : (b.nodes.filter fun ne => !ne.is_dead).length < b.k := by
      rcases hroom with h | h
      · exact absurd h hany1
      · exact h
    have hb1 : (b.insert now1 n).1.nodes
        = (b.nodes.filter fun ne => !ne.is_dead) ++ [⟨now1, n, 0⟩] :=
      Bucket.insert_nodes_append b now1 n hany1 hroom2
    have hz : countId (b.nodes.filter fun ne => !ne.is_dead) n.id = 0 := by
      apply countId_eq_zero_of_not_mem
      intro ne hne
      exact hall ne (List.mem_filter.mp hne).1
    have hc1 : countId (b.insert now1 n).1.nodes n.id = 1 := by
      rw [hb1, countId_append, hz]
      simp [countId]
    have hany2 : ((b.insert now1 n).1.nodes.any fun ne => decide (ne.node.id = nn.id)) = true := by
      rw [hid]; exact countId_any _ _ (by omega)
    have hb2 : ((b.insert now1 n).1.insert now2 nn).1.nodes
        = (b.insert now1 n).1.nodes.map
            fun ne => if decide (ne.node.id = nn.id) then ⟨now2, nn, 0⟩ else ne :=
      Bucket.insert_nodes_update _ now2 nn hany2
    constructor
    · rw [hb2, countId_map_of_id_eq _ (updEntry_id now2 nn), hc1]
    · intro ne hne hkey
      rw [hb2] at hne
      exact updEntry_unique now2 nn _ ne hne (by rw [hid]; exact hkey)

/-- C7 witness: concrete two-step insertion into an empty bucket. -/
theorem claim_C7_witness :
    countId (((Bucket.new 8 900 0).insert 1 nodeA).1.insert 2 nodeA2).1.nodes nodeA.id = 1 ∧
    ∀ ne ∈ (((Bucket.new 8 900 0).insert 1 nodeA).1.insert 2 nodeA2).1.nodes,
      ne.node.id = nodeA.id → ne = ⟨2, nodeA2, 0⟩ :=
  claim_C7_theorem (Bucket.new 8 900 0) 1 2 nodeA nodeA2 (by decide) (by decide)
    (Or.inr (by decide))

/-- C7 counterexample: on a full bucket of live nodes, insert(n) followed
by insert(n') with the same fresh id leaves zero records for that id,
not exactly one. -/
theorem claim_C7_counterexample :
    countId ((fullBucket.insert 1 nodeA).1.insert 2 nodeA2).1.nodes nodeA.id = 0 := by decide

/-! ## Claims C2, C5, C10 -/

/-- C2 (code bug evidence): at the failing input (epoch seconds 3600,
30-second interval, max count 2, peer 1.2.3.4:80) the counter
create_token feeds to SHA-1 is 3600 mod 30 = 0, not the floor quotient
120 the claim (and spec) state; and the token created at 3600 still
validates at 3690 = now + (max_token_interval_count + 1) * interval,
where the claim requires it to fail (every recomputation window uses the
same remainder, so the window logic is inoperative). -/
theorem claim_C2_theorem :
    TokenManager.tokenCounter tmC2 3600 = 0 ∧
    specTokenCounter tmC2 3600 = 120 ∧
    TokenManager.valid_token tmC2 3690 (TokenManager.create_token tmC2 3600 addrA) addrA
      = true := by
  refine ⟨rfl, rfl, by decide⟩

/-- C5 (code bug evidence): at the failing input (transaction created at
time 0, sweep at now = 10 with timeout 5) the sweep removes nothing and
keeps the manager unchanged, because the source computes
created_at - now (which saturates to zero) instead of now - created_at;
the claim requires the aged transaction to be removed. -/
theorem claim_C5_theorem :
    (mgrC5.refresh 10 5).2 = [] ∧ (mgrC5.refresh 10 5).1 = mgrC5 := by
  exact ⟨rfl, rfl⟩

/-- C10: in every reachable transaction-registry state under a configured
depth of at least 1, every registered lookup transaction (find_node or
get_peers) has depth at least 1, so the unguarded depth decrement at the
top of on_find_node_rsp / on_get_peers_rsp never underflows. -/
theorem claim_C10_theorem (cfgDepth : Nat) (s : List TranEntry) (e : TranEntry)
    (hcfg : 1 ≤ cfgDepth) (htrace : DhtTrace cfgDepth s) (hmem : e ∈ s)
    (hlookup : e.query_type.isLookup = true) : 1 ≤ e.depth := by
  induction htrace with
  | init => simp at hmem
  | ping s _ ih =>
    rcases List.mem_cons.mp hmem with rfl | h
    · simp [QueryType.isLookup] at hlookup
    · exact ih h
  | announce_peer s _ ih =>
    rcases List.mem_cons.mp hmem with rfl | h
    · simp [QueryType.isLookup] at hlookup
    · exact ih h
  | find_node s _ ih =>
    rcases List.mem_cons.mp hmem with rfl | h
    · exact hcfg
    · exact ih h
  | get_peers s _ ih =>
    rcases List.mem_cons.mp hmem with rfl | h
    · exact hcfg
    · exact ih h
  | remove s1 s2 e2 _ ih =>
    rcases List.mem_append.mp hmem with h | h
    · exact ih (List.mem_append.mpr (Or.inl h))
    · exact ih (List.mem_append.mpr (Or.inr (List.mem_cons_of_mem _ h)))
  | fan_out s1 s2 e2 k hlk hguard _ ih =>
    rcases List.mem_append.mp hmem with h | h
    · have hk : k ≠ 0 := by
        intro hk0
        rw [hk0] at h
        simp at h
      have he := List.eq_of_mem_replicate h
      rw [he]
      have := hguard hk
      show 1 ≤ e2.depth - 1
      omega
    · rcases List.mem_append.mp h with h2 | h2
      · exact ih (List.mem_append.mpr (Or.inl h2))
      · exact ih (List.mem_append.mpr (Or.inr (List.mem_cons_of_mem _ h2)))

/-- C10 witness: the state reached by registering one find_node lookup
at the default configured depth 4. -/
theorem claim_C10_witness : 1 ≤ (TranEntry.mk QueryType.find_node 4).depth :=
  claim_C10_theorem 4 [⟨QueryType.find_node, 4⟩] ⟨QueryType.find_node, 4⟩ (by decide)
    (DhtTrace.find_node [] DhtTrace.init) (by decide) (by decide)

/-! ## Claims C4 and C6 -/

/-- C4 (amended): for every state and every announce_peer query carrying
an info_hash and a token that fails valid_token for the sender's
address, the handler aborts with the local error DhtError::InVaildToken:
no reply message of any kind (in particular no KRPC error 203) is sent,
and the peer store is left unchanged. -/
theorem claim_C4_theorem (tm : TokenManager) (now : Nat) (store : List (HashPiece × Node))
    (req : KrpcQuery) (tran_id : ByteStr) (addr : PeerAddress) (ih : HashPiece) (tok : BValue)
    (hih : req.info_hash = some ih) (htok : req.token = some tok)
    (hvalid : tm.valid_token now tok addr = false) :
    handle_announce_peer_req tm now store req tran_id addr = .error DhtError.inVaildToken ∧
    handlerSentMessages (handle_announce_peer_req tm now store req tran_id addr) = [] := by
  have h : handle_announce_peer_req tm now store req tran_id addr
      = .error DhtError.inVaildToken := by
    unfold handle_announce_peer_req
    rw [hih, htok]
    simp [hvalid]
  exact ⟨h, by rw [h]; rfl⟩

theorem claim_C4_witness :
    handle_announce_peer_req tmC2 1000 [] reqC4 [97] addrA = .error DhtError.inVaildToken ∧
    handlerSentMessages (handle_announce_peer_req tmC2 1000 [] reqC4 [97] addrA) = [] :=
  claim_C4_theorem tmC2 1000 [] reqC4 [97] addrA zeroId badToken rfl rfl (by decide)

/-- C4 counterexample: at the concrete failing input the handler result
is the local error InVaildToken and the set of sent messages is empty,
so no KRPC error message with code 203 is sent back (the claim's reply
requirement fails; the store is indeed untouched, as the error result
carries no store update). -/
theorem claim_C4_counterexample :
    handle_announce_peer_req tmC2 1000 [] reqC4 [97] addrA = .error DhtError.inVaildToken ∧
    handlerSentMessages (handle_announce_peer_req tmC2 1000 [] reqC4 [97] addrA) = []
      ∧ DhtError.inVaildToken ≠ DhtError.protocol [203] := by
  refine ⟨by decide, by decide, by decide⟩

/-- C6 (amended): for every state and every get_peers query carrying an
info_hash, the reply always contains values - the want/family-filtered
peer list from the store, possibly empty - never nodes or nodes6, and
always a fresh token for the querying address. -/
theorem claim_C6_theorem (selfId : HashPiece) (k : Nat) (tm : TokenManager) (now : Nat)
    (store : List (HashPiece × Node)) (req : KrpcQuery) (tran_id : ByteStr)
    (addr : PeerAddress) (ih : HashPiece) (hih : req.info_hash = some ih) :
    handle_get_peers_req selfId k tm now store req tran_id addr
      = .ok (⟨tran_id, MessageType.response, none, none,
          some ⟨selfId, none, none, some (tm.create_token now addr),
            some ((get_peer_addresses store ih k (wantFilter req.want addr)).map
              fun n => n.peer_address)⟩, none, none⟩, addr) := by
  unfold handle_get_peers_req
  rw [hih]

theorem claim_C6_witness :
    handle_get_peers_req zeroId 8 tmC2 1000 [(zeroId, nodeB)] reqC6 [97] addrA
      = .ok (⟨[97], MessageType.response, none, none,
          some ⟨zeroId, none, none, some (tmC2.create_token 1000 addrA),
            some ((get_peer_addresses [(zeroId, nodeB)] zeroId 8
              (wantFilter reqC6.want addrA)).map fun n => n.peer_address)⟩, none, none⟩,
          addrA) :=
  claim_C6_theorem zeroId 8 tmC2 1000 [(zeroId, nodeB)] reqC6 [97] addrA zeroId rfl

/-- C6 counterexample: with an empty peer store the reply still carries
values (the empty list) and no nodes/nodes6, where the claim requires
nodes (chosen as for find_node) instead of values. -/
theorem claim_C6_counterexample :
    handle_get_peers_req zeroId 8 tmC2 1000 [] reqC6 [97] addrA
      = .ok (⟨[97], MessageType.response, none, none,
          some ⟨zeroId, none, none, some (tmC2.create_token 1000 addrA), some []⟩,
          none, none⟩, addrA) := by
  decide


theorem natToDecAux_congr : ∀ (f g n : Nat), n < f → n < g → natToDecAux f n = natToDecAux g n := by
  intro f
  induction f with
  | zero => intro g n hf; omega
  | succ f ih =>
    intro g n hf hg
    cases g with
    | zero => omega
    | succ g =>
      by_cases h10 : n < 10
      · simp [natToDecAux, h10]
      · simp only [natToDecAux, h10, if_false]
        have hdiv : n / 10 < n := Nat.div_lt_self (by omega) (by omega)
        rw [ih g (n / 10) (by omega) (by omega)]

theorem natToDec_eq (n : Nat) :
    natToDec n = if n < 10 then [48 + n] else natToDec (n / 10) ++ [48 + n % 10] := by
  unfold natToDec
  by_cases h10 : n < 10
  · simp [natToDecAux, h10]
  · simp only [natToDecAux, h10, if_false]
    congr 1
    have hdiv : n / 10 < n := Nat.div_lt_self (by omega) (by omega)
    exact natToDecAux_congr n (n / 10 + 1) (n / 10) (by omega) (by omega)

theorem natToDec_digits : ∀ (n : Nat), ∀ c ∈ natToDec n, 48 ≤ c ∧ c ≤ 57 := by
  intro n
  induction n using Nat.strong_induction_on with
  | _ n ih =>
    rw [natToDec_eq]
    by_cases h10 : n < 10
    · simp only [h10, if_true]
      intro c hc
      simp only [List.mem_singleton] at hc
      omega
    · simp only [h10, if_false]
      intro c hc
      rcases List.mem_append.mp hc with h | h
      · exact ih (n / 10) (Nat.div_lt_self (by omega) (by omega)) c h
      · simp only [List.mem_singleton] at h
        have := Nat.mod_lt n (show 0 < 10 by omega)
        omega

theorem natToDec_ne_nil (n : Nat) : natToDec n ≠ [] := by
  rw [natToDec_eq]
  by_cases h10 : n < 10
  · simp [h10]
  · simp only [h10, if_false]
    intro h
    rcases List.append_eq_nil.mp h with ⟨_, h2⟩
    exact List.cons_ne_nil _ _ h2

theorem decDigitsAux_append (l1 l2 : ByteStr) :
    ∀ acc, decDigitsAux acc (l1 ++ l2)
      = (decDigitsAux acc l1).bind fun a => decDigitsAux a l2 := by
  induction l1 with
  | nil => intro acc; rfl
  | cons c cs ih =>
    intro acc
    by_cases hd : isDigitB c = true
    · simp only [List.cons_append, decDigitsAux, hd, if_true]
      exact ih _
    · simp only [List.cons_append, decDigitsAux, hd, Bool.false_eq_true, if_false]
      rfl

theorem decDigitsAux_natToDec : ∀ (n : Nat), ∀ acc,
    decDigitsAux acc (natToDec n) = some (acc * 10 ^ (natToDec n).length + n) := by
  intro n
  induction n using Nat.strong_induction_on with
  | _ n ih =>
    intro acc
    rw [natToDec_eq]
    by_cases h10 : n < 10
    · simp only [h10, if_true]
      have hd : isDigitB (48 + n) = true := by simp [isDigitB]; omega
      simp only [decDigitsAux, hd, if_true, List.length_singleton]
      congr 2
      omega
    · simp only [h10, if_false]
      rw [decDigitsAux_append]
      have hdiv : n / 10 < n := Nat.div_lt_self (by omega) (by omega)
      rw [ih (n / 10) hdiv acc]
      have hd : isDigitB (48 + n % 10) = true := by
        have := Nat.mod_lt n (show 0 < 10 by omega)
        simp [isDigitB]; omega
      simp only [Option.some_bind, decDigitsAux, hd, if_true, List.length_append,
        List.length_singleton]
      have harith : (acc * 10 ^ (natToDec (n / 10)).length + n / 10) * 10 + (48 + n % 10 - 48)
          = acc * 10 ^ ((natToDec (n / 10)).length + 1) + n := by
        rw [pow_succ, ← mul_assoc]
        generalize acc * 10 ^ (natToDec (n / 10)).length = A
        omega
      rw [harith]

theorem decToInt_natToDec (n : Nat) (hle : n ≤ I64MAX) :
    decToInt (natToDec n) = some ((n : Int)) := by
  rcases hex : natToDec n with _ | ⟨c, cs⟩
  · exact absurd hex (natToDec_ne_nil n)
  · have hc : 48 ≤ c ∧ c ≤ 57 := natToDec_digits n c (by rw [hex]; simp)
    have hc45 : ¬ c = 45 := by omega
    simp only [decToInt, hc45, if_false]
    rw [← hex, decDigitsAux_natToDec]
    simp [hle]

theorem parseIntRaw_digits (ds : ByteStr) (hd : ∀ c ∈ ds, 48 ≤ c ∧ c ≤ 57) :
    ∀ (t : Nat), (t = 101 ∨ t = 58) → ∀ rest, parseIntRaw (ds ++ t :: rest) = some (ds, rest) := by
  induction ds with
  | nil =>
    intro t ht rest
    simp [parseIntRaw, ht]
  | cons c cs ih =>
    intro t ht rest
    have hc : 48 ≤ c ∧ c ≤ 57 := hd c (by simp)
    have hterm : ¬ (c = 101 ∨ c = 58) := by omega
    have hdig : isDigitB c = true := by simp [isDigitB]; omega
    simp only [List.cons_append, parseIntRaw, hterm, if_false, hdig, Bool.true_eq_false,
      true_or, if_true, List.append_eq]
    rw [ih (fun x hx => hd x (by simp [hx])) t ht rest]
    rfl

theorem parseBytes_enc (b : ByteStr) (hlen : b.length ≤ I64MAX) (rest : ByteStr) :
    parseBytes (encBytes b ++ rest) = some (b, rest) := by
  rcases hex : natToDec b.length with _ | ⟨c, cs⟩
  · exact absurd hex (natToDec_ne_nil _)
  · have hc : 48 ≤ c ∧ c ≤ 57 := natToDec_digits _ c (by rw [hex]; simp)
    have hdig : isDigitB c = true := by simp [isDigitB]; omega
    have hkey : encBytes b ++ rest = c :: (cs ++ 58 :: (b ++ rest)) := by
      simp [encBytes, hex]
    rw [hkey]
    simp only [parseBytes, hdig, if_true]
    have hds : ∀ x ∈ c :: cs, 48 ≤ x ∧ x ≤ 57 := by
      intro x hx
      exact natToDec_digits b.length x (by rw [hex]; exact hx)
    have hraw2 := parseIntRaw_digits (c :: cs) hds 58 (Or.inr rfl) (b ++ rest)
    simp only [List.cons_append] at hraw2
    rw [hraw2]
    simp only [Option.some_bind]
    rw [← hex, decToInt_natToDec _ hlen]
    simp only [Option.some_bind, Int.toNat_natCast]
    rw [if_pos (by simp [List.length_append])]
    rw [List.take_left, List.drop_left]

theorem encBytes_head (b : ByteStr) :
    ∃ c cs, natToDec b.length = c :: cs ∧ 48 ≤ c ∧ c ≤ 57 := by
  rcases hex : natToDec b.length with _ | ⟨c, cs⟩
  · exact absurd hex (natToDec_ne_nil _)
  · exact ⟨c, cs, rfl, natToDec_digits _ c (by rw [hex]; simp)⟩

theorem encBytes_expose (b : ByteStr) (rest : ByteStr) :
    ∃ c cs, encBytes b ++ rest = c :: cs ∧ 48 ≤ c ∧ c ≤ 57 := by
  rcases encBytes_head b with ⟨c, cs, hex, hc1, hc2⟩
  refine ⟨c, cs ++ 58 :: (b ++ rest), ?_, hc1, hc2⟩
  simp [encBytes, hex]

theorem intToDec_nonneg (i : Int) (h0 : 0 ≤ i) : intToDec i = natToDec i.toNat := by
  unfold intToDec
  rw [if_neg (by omega)]

theorem parseI64_encInt (i : Int) (h0 : 0 ≤ i) (hle : i ≤ ((I64MAX : Nat) : Int)) (rest : ByteStr) :
    parseI64 (encInt i ++ rest) = some (i, rest) := by
  have hshape : encInt i ++ rest = 105 :: (natToDec i.toNat ++ 101 :: rest) := by
    simp [encInt, intToDec_nonneg i h0]
  rw [hshape]
  simp only [parseI64]
  rw [parseIntRaw_digits _ (natToDec_digits _) 101 (Or.inl rfl) rest]
  simp only [Option.some_bind]
  rw [decToInt_natToDec _ (by omega)]
  simp only [Option.map_some']
  congr 2
  omega

theorem parseBool_encBool (b : Bool) (rest : ByteStr) :
    parseBool (encBool b ++ rest) = some (b, rest) := by
  cases b
  · rw [show encBool false = encInt 0 from rfl]
    unfold parseBool
    rw [parseI64_encInt 0 (by omega) (by norm_num [I64MAX]) rest]
    simp
  · rw [show encBool true = encInt 1 from rfl]
    unfold parseBool
    rw [parseI64_encInt 1 (by omega) (by norm_num [I64MAX]) rest]
    simp

theorem parseU16_some (s : ByteStr) (i : Int) (r : ByteStr)
    (hps : parseI64 s = some (i, r)) (h0 : 0 ≤ i) (hlt : i < 65536) :
    parseU16 s = some (i.toNat, r) := by
  unfold parseU16
  rw [hps]
  simp only [Option.some_bind]
  rw [if_pos ⟨h0, hlt⟩]

theorem parseU16_enc (p : Nat) (hp : p < 65536) (rest : ByteStr) :
    parseU16 (encInt (p : Int) ++ rest) = some (p, rest) := by
  have h := parseU16_some _ _ _
    (parseI64_encInt (p : Int) (by omega) (by unfold I64MAX; omega) rest)
    (by omega) (by exact_mod_cast hp)
  simpa using h

theorem parseHashPiece_enc (h : HashPiece) (h20 : h.bytes.length = ID_LEN) (rest : ByteStr) :
    parseHashPiece (encHashPiece h ++ rest) = some (h, rest) := by
  unfold parseHashPiece encHashPiece
  rw [parseBytes_enc h.bytes (by rw [h20]; decide) rest]
  simp [h20]

theorem parseMessageType_enc (y : MessageType) (rest : ByteStr) :
    parseMessageType (encMessageType y ++ rest) = some (y, rest) := by
  cases y <;>
    (unfold encMessageType parseMessageType
     rw [parseBytes_enc _ (by decide) rest]
     simp)

theorem parseQueryType_enc (q : QueryType) (rest : ByteStr) :
    parseQueryType (encQueryType q ++ rest) = some (q, rest) := by
  cases q <;>
    (unfold encQueryType parseQueryType
     rw [parseBytes_enc _ (by decide) rest]
     simp)

theorem parseBValue_encBytes (b : ByteStr) (hlen : b.length ≤ I64MAX) (fuel : Nat)
    (hf : 1 ≤ fuel) (rest : ByteStr) :
    parseBValue fuel (encBytes b ++ rest) = some (.bytes b, rest) := by
  obtain ⟨f, rfl⟩ : ∃ f, fuel = f + 1 := ⟨fuel - 1, by omega⟩
  obtain ⟨c, cs, heq, hc1, hc2⟩ := encBytes_expose b rest
  have hdig : isDigitB c = true := by simp [isDigitB]; omega
  rw [heq]
  simp only [parseBValue]
  rw [if_neg (by omega), if_pos hdig, ← heq, parseBytes_enc b hlen rest]
  rfl

theorem peerAddressFromBytes_compact_v4 (a : PeerAddress) (ha : addrWfV4 a) :
    peerAddressFromBytes (compactPeerAddress a) = a := by
  obtain ⟨ip, port⟩ := a
  cases ip with
  | v6 o => exact ha.elim
  | v4 o =>
    obtain ⟨hlen, -, hport⟩ := ha
    simp only [compactPeerAddress, portBeBytes, peerAddressFromBytes]
    rw [if_pos (by simp [List.length_append, hlen])]
    have ht : (o ++ [port / 256 % 256, port % 256]).take 4 = o := by
      rw [← hlen, List.take_left]
    have h4 : (o ++ [port / 256 % 256, port % 256]).getD 4 0 = port / 256 % 256 := by
      rw [List.getD_append_right _ _ _ _ (by omega), hlen]
      simp
    have h5 : (o ++ [port / 256 % 256, port % 256]).getD 5 0 = port % 256 := by
      rw [List.getD_append_right _ _ _ _ (by omega), hlen]
      simp
    rw [ht, h4, h5]
    have hp : port < 65536 := hport
    congr 1
    omega

theorem nodeFromBytes_compact_v4 (n : Node) (hn : nodeWfV4 n) :
    nodeFromBytes (compactNode n) = n := by
  obtain ⟨⟨idb⟩, ip, port⟩ := n
  obtain ⟨⟨h20, -⟩, ha⟩ := hn
  cases ip with
  | v6 o => exact ha.elim
  | v4 o =>
    obtain ⟨hlen, -, hport⟩ := ha
    have h20' : idb.length = 20 := h20
    have hp : port < 65536 := hport
    simp only [compactNode, compactPeerAddress, portBeBytes]
    unfold nodeFromBytes
    rw [if_pos (by simp [List.length_append, h20', hlen])]
    have htid : (idb ++ (o ++ [port / 256 % 256, port % 256])).take 20 = idb := by
      rw [← h20', List.take_left]
    have hdrop : (idb ++ (o ++ [port / 256 % 256, port % 256])).drop 20
        = o ++ [port / 256 % 256, port % 256] := by
      rw [← h20', List.drop_left]
    have hto : ((o ++ [port / 256 % 256, port % 256])).take 4 = o := by
      rw [← hlen, List.take_left]
    have h24 : (idb ++ (o ++ [port / 256 % 256, port % 256])).getD 24 0
        = port / 256 % 256 := by
      rw [List.getD_append_right _ _ _ _ (by omega), h20',
        List.getD_append_right _ _ _ _ (by omega), hlen]
      simp
    have h25 : (idb ++ (o ++ [port / 256 % 256, port % 256])).getD 25 0 = port % 256 := by
      rw [List.getD_append_right _ _ _ _ (by omega), h20',
        List.getD_append_right _ _ _ _ (by omega), hlen]
      simp
    rw [htid, hdrop, hto, h24, h25]
    have harith : 256 * (port / 256 % 256) + port % 256 = port := by omega
    rw [harith]

theorem nodeFromBytes_compact_v6 (n : Node) (hn : nodeWfV6 n) :
    nodeFromBytes (compactNode n) = n := by
  obtain ⟨⟨idb⟩, ip, port⟩ := n
  obtain ⟨⟨h20, -⟩, ha⟩ := hn
  cases ip with
  | v4 o => exact ha.elim
  | v6 o =>
    obtain ⟨hlen, -, hport⟩ := ha
    have h20' : idb.length = 20 := h20
    have hp : port < 65536 := hport
    simp only [compactNode, compactPeerAddress, portBeBytes]
    unfold nodeFromBytes
    rw [if_neg (by simp [List.length_append, h20', hlen])]
    have hdrop : (idb ++ (o ++ [port / 256 % 256, port % 256])).drop 20
        = o ++ [port / 256 % 256, port % 256] := by
      rw [← h20', List.drop_left]
    have hto : ((o ++ [port / 256 % 256, port % 256])).take 16 = o := by
      rw [← hlen, List.take_left]
    have htid : (idb ++ (o ++ [port / 256 % 256, port % 256])).take 20 = idb := by
      rw [← h20', List.take_left]
    have h36 : (idb ++ (o ++ [port / 256 % 256, port % 256])).getD 36 0
        = port / 256 % 256 := by
      rw [List.getD_append_right _ _ _ _ (by omega), h20',
        List.getD_append_right _ _ _ _ (by omega), hlen]
      simp
    have h37 : (idb ++ (o ++ [port / 256 % 256, port % 256])).getD 37 0 = port % 256 := by
      rw [List.getD_append_right _ _ _ _ (by omega), h20',
        List.getD_append_right _ _ _ _ (by omega), hlen]
      simp
    rw [htid, hdrop, hto, h36, h37]
    have harith : 256 * (port / 256 % 256) + port % 256 = port := by omega
    rw [harith]

theorem chunksOf_nil (n : Nat) : chunksOf n [] = [] := by
  simp [chunksOf]

theorem chunksOf_cons (n : Nat) (hn : 0 < n) (b t : ByteStr) (hb : b.length = n) :
    chunksOf n (b ++ t) = b :: chunksOf n t := by
  unfold chunksOf
  have hlen : (b ++ t).length / n = t.length / n + 1 := by
    rw [List.length_append, hb, Nat.add_comm, Nat.add_div_right _ hn]
  rw [hlen, List.range_succ_eq_map, List.map_cons]
  congr 1
  · rw [Nat.zero_mul, List.drop_zero, ← hb, List.take_left]
  · rw [List.map_map]
    apply List.map_congr_left
    intro i _
    simp only [Function.comp_apply]
    have hstep : (i + 1) * n = b.length + i * n := by rw [hb]; ring
    rw [hstep, List.drop_append]

theorem chunksOf_flatMap {α : Type} (n : Nat) (hn : 0 < n) (f : α → ByteStr) :
    ∀ (l : List α), (∀ x ∈ l, (f x).length = n) →
      chunksOf n (l.flatMap f) = l.map f := by
  intro l
  induction l with
  | nil => intro _; simp [chunksOf]
  | cons a as ih =>
    intro h
    rw [List.flatMap_cons, chunksOf_cons n hn _ _ (h a (by simp)), List.map_cons,
      ih (fun x hx => h x (by simp [hx]))]

theorem length_flatMap_const {α : Type} (f : α → ByteStr) (n : Nat) :
    ∀ (l : List α), (∀ x ∈ l, (f x).length = n) → (l.flatMap f).length = l.length * n := by
  intro l
  induction l with
  | nil => intro _; simp
  | cons a as ih =>
    intro h
    rw [List.flatMap_cons, List.length_append, h a (by simp),
      ih (fun x hx => h x (by simp [hx])), List.length_cons]
    ring

theorem compactPeerAddress_length_v4 (a : PeerAddress) (h : addrWfV4 a) :
    (compactPeerAddress a).length = 6 := by
  obtain ⟨ip, port⟩ := a
  cases ip with
  | v6 o => exact h.elim
  | v4 o =>
    obtain ⟨hlen, -, -⟩ := h
    simp [compactPeerAddress, portBeBytes, hlen]

theorem compactNode_length_v4 (x : Node) (h : nodeWfV4 x) : (compactNode x).length = 26 := by
  obtain ⟨⟨idb⟩, ip, port⟩ := x
  obtain ⟨⟨h20, -⟩, ha⟩ := h
  cases ip with
  | v6 o => exact ha.elim
  | v4 o =>
    obtain ⟨hlen, -, -⟩ := ha
    have h20' : idb.length = 20 := h20
    simp [compactNode, compactPeerAddress, portBeBytes, hlen, h20']

theorem compactNode_length_v6 (x : Node) (h : nodeWfV6 x) : (compactNode x).length = 38 := by
  obtain ⟨⟨idb⟩, ip, port⟩ := x
  obtain ⟨⟨h20, -⟩, ha⟩ := h
  cases ip with
  | v4 o => exact ha.elim
  | v6 o =>
    obtain ⟨hlen, -, -⟩ := ha
    have h20' : idb.length = 20 := h20
    simp [compactNode, compactPeerAddress, portBeBytes, hlen, h20']

theorem parseCompactNodesBuf_v4 (l : List Node) (h : ∀ x ∈ l, nodeWfV4 x) :
    parseCompactNodesBuf (l.flatMap compactNode) = some l := by
  have hlen : (l.flatMap compactNode).length = l.length * 26 :=
    length_flatMap_const _ _ l (fun x hx => compactNode_length_v4 x (h x hx))
  unfold parseCompactNodesBuf
  rw [if_neg (by rw [hlen]; simp [Nat.mul_mod_left]), if_pos (by rw [hlen]; exact Nat.mul_mod_left _ _)]
  rw [chunksOf_flatMap 26 (by omega) compactNode l
    (fun x hx => compactNode_length_v4 x (h x hx)), List.map_map]
  have hmap : l.map (nodeFromBytes ∘ compactNode) = l.map id :=
    List.map_congr_left (fun x hx => nodeFromBytes_compact_v4 x (h x hx))
  rw [hmap, List.map_id]

theorem parseCompactNodesBuf_v6 (l : List Node) (h : ∀ x ∈ l, nodeWfV6 x)
    (hsafe : l.length % 13 ≠ 0 ∨ l = []) :
    parseCompactNodesBuf (l.flatMap compactNode) = some l := by
  rcases hsafe with hk | rfl
  · have hlen : (l.flatMap compactNode).length = l.length * 38 :=
      length_flatMap_const _ _ l (fun x hx => compactNode_length_v6 x (h x hx))
    have h26 : l.length * 38 % 26 ≠ 0 := by omega
    unfold parseCompactNodesBuf
    rw [if_neg (by rw [hlen]; simp [Nat.mul_mod_left, h26]), if_neg (by rw [hlen]; exact h26)]
    rw [chunksOf_flatMap 38 (by omega) compactNode l
      (fun x hx => compactNode_length_v6 x (h x hx)), List.map_map]
    have hmap : l.map (nodeFromBytes ∘ compactNode) = l.map id :=
      List.map_congr_left (fun x hx => nodeFromBytes_compact_v6 x (h x hx))
    rw [hmap, List.map_id]
  · rfl

theorem parseCompactAddressesBuf_v4 (l : List PeerAddress) (h : ∀ x ∈ l, addrWfV4 x)
    (h3 : l.length % 3 = 0) :
    parseCompactAddressesBuf (l.flatMap compactPeerAddress) = some l := by
  have hlen : (l.flatMap compactPeerAddress).length = l.length * 6 :=
    length_flatMap_const _ _ l (fun x hx => compactPeerAddress_length_v4 x (h x hx))
  have h18 : l.length * 6 % 18 = 0 := by omega
  unfold parseCompactAddressesBuf
  rw [if_neg (by rw [hlen]; simp [Nat.mul_mod_left, h18]), if_pos (by rw [hlen]; exact Nat.mul_mod_left _ _)]
  rw [chunksOf_flatMap 6 (by omega) compactPeerAddress l
    (fun x hx => compactPeerAddress_length_v4 x (h x hx)), List.map_map]
  have hmap : l.map (peerAddressFromBytes ∘ compactPeerAddress) = l.map id :=
    List.map_congr_left (fun x hx => peerAddressFromBytes_compact_v4 x (h x hx))
  rw [hmap, List.map_id]

theorem parseCompactNodes_enc (l : List Node) (hI : (l.flatMap compactNode).length ≤ I64MAX)
    (hbuf : parseCompactNodesBuf (l.flatMap compactNode) = some l) (rest : ByteStr) :
    parseCompactNodes (encCompactNodes l ++ rest) = some (l, rest) := by
  unfold parseCompactNodes encCompactNodes
  rw [parseBytes_enc _ hI rest]
  simp [hbuf]

theorem parseCompactAddresses_enc (l : List PeerAddress)
    (hI : (l.flatMap compactPeerAddress).length ≤ I64MAX)
    (hbuf : parseCompactAddressesBuf (l.flatMap compactPeerAddress) = some l)
    (rest : ByteStr) :
    parseCompactAddresses (encCompactAddresses l ++ rest) = some (l, rest) := by
  unfold parseCompactAddresses encCompactAddresses
  rw [parseBytes_enc _ hI rest]
  simp [hbuf]

theorem parseWantItems_enc (w : List ByteStr) (hw : ∀ x ∈ w, x.length ≤ I64MAX) :
    ∀ fuel, w.length + 1 ≤ fuel → ∀ rest,
      parseWantItems fuel (w.flatMap encBytes ++ 101 :: rest) = some (w, rest) := by
  induction w with
  | nil =>
    intro fuel hf rest
    obtain ⟨f, rfl⟩ : ∃ f, fuel = f + 1 := ⟨fuel - 1, by omega⟩
    simp [parseWantItems]
  | cons x xs ih =>
    intro fuel hf rest
    obtain ⟨f, rfl⟩ : ∃ f, fuel = f + 1 := ⟨fuel - 1, by omega⟩
    rw [List.flatMap_cons, List.append_assoc]
    obtain ⟨c, cs, heq, hc1, hc2⟩ := encBytes_expose x (xs.flatMap encBytes ++ 101 :: rest)
    rw [heq]
    simp only [parseWantItems]
    rw [if_neg (by omega), ← heq, parseBytes_enc x (hw x (by simp)) _]
    simp only [Option.some_bind]
    rw [ih (fun y hy => hw y (by simp [hy])) f (by simp at hf; omega) rest]
    rfl

theorem parseWant_enc (w : List ByteStr) (hw : ∀ x ∈ w, x.length ≤ I64MAX)
    (fuel : Nat) (hf : w.length + 1 ≤ fuel) (rest : ByteStr) :
    parseWant fuel (encWant w ++ rest) = some (w, rest) := by
  have hshape : encWant w ++ rest = 108 :: (w.flatMap encBytes ++ 101 :: rest) := by
    simp [encWant]
  rw [hshape]
  simp only [parseWant]
  exact parseWantItems_enc w hw fuel hf rest

theorem parseKrpcError_enc (code : Int) (desc : ByteStr) (h0 : 0 ≤ code)
    (hle : code ≤ ((I64MAX : Nat) : Int)) (hd : desc.length ≤ I64MAX) (rest : ByteStr) :
    parseKrpcError (encKrpcError ⟨code, desc⟩ ++ rest) = some (⟨code, desc⟩, rest) := by
  have hshape : encKrpcError ⟨code, desc⟩ ++ rest
      = 108 :: (encInt code ++ (encBytes desc ++ 101 :: rest)) := by
    simp [encKrpcError]
  rw [hshape]
  have hint : encInt code ++ (encBytes desc ++ 101 :: rest)
      = 105 :: (intToDec code ++ ([101] ++ (encBytes desc ++ 101 :: rest))) := by
    simp [encInt]
  rw [hint]
  simp only [parseKrpcError]
  rw [← hint, parseI64_encInt code h0 hle _]
  simp only [Option.some_bind]
  obtain ⟨c, cs, heqd, hc1, hc2⟩ := encBytes_expose desc (101 :: rest)
  rw [heqd]
  split
  · rename_i heq101
    exfalso
    simp only [List.cons.injEq] at heq101
    omega
  · rw [← heqd, parseBytes_enc desc hd _]
    rfl

theorem parseQF_end (acc : QueryAcc) (idv : HashPiece) (hid : acc.id = some idv) :
    ∀ f, 1 ≤ f → ∀ (rest : ByteStr),
      parseQueryFields f acc (101 :: rest)
        = some (⟨idv, acc.target, acc.info_hash, acc.port, acc.token, acc.implied_port,
            acc.want.getD []⟩, rest) := by
  intro f hf rest
  obtain ⟨f', rfl⟩ : ∃ f', f = f' + 1 := ⟨f - 1, by omega⟩
  simp only [parseQueryFields]
  rw [if_pos trivial, hid]

theorem parseQF_target (o : Option HashPiece) (ho : optPred HashPiece.wf o)
    (acc : QueryAcc) (hnone : acc.target = none) (tail : ByteStr)
    (res : Option (KrpcQuery × ByteStr))
    (hk : ∀ g, tail.length + 1 ≤ g → parseQueryFields g { acc with target := o } tail = res) :
    ∀ f, (encOptField [116, 97, 114, 103, 101, 116] encHashPiece o ++ tail).length + 1 ≤ f →
      parseQueryFields f acc (encOptField [116, 97, 114, 103, 101, 116] encHashPiece o ++ tail)
        = res := by
  obtain ⟨aid, atg, aih, apt, atk, aip, aw⟩ := acc
  have hnone' : atg = none := hnone
  subst hnone'
  intro f hf
  cases o with
  | none =>
    simp only [encOptField, List.nil_append] at hf ⊢
    exact hk f hf
  | some x =>
    have hwf : x.wf := ho
    simp only [encOptField] at hf ⊢
    rw [List.append_assoc] at hf ⊢
    obtain ⟨f', rfl⟩ : ∃ f', f = f' + 1 := ⟨f - 1, by omega⟩
    obtain ⟨c, cs, heq, hc1, hc2⟩ :=
      encBytes_expose [116, 97, 114, 103, 101, 116] (encHashPiece x ++ tail)
    rw [heq]
    simp only [parseQueryFields]
    rw [if_neg (by omega), ← heq,
      parseBytes_enc [116, 97, 114, 103, 101, 116] (by decide) _]
    simp only [Option.some_bind]
    rw [if_neg (by decide), if_pos trivial]
    simp only [Option.isSome_none, Bool.false_eq_true, if_false]
    rw [parseHashPiece_enc x hwf.1 tail]
    simp only [Option.some_bind]
    have hkl : (encBytes [116, 97, 114, 103, 101, 116]).length = 8 := rfl
    simp only [List.length_append] at hf
    exact hk f' (by omega)

theorem one_le_length_encBytes (b : ByteStr) : 1 ≤ (encBytes b).length := by
  simp [encBytes]
  omega

theorem length_le_length_flatMap_encBytes :
    ∀ (l : List ByteStr), l.length ≤ (l.flatMap encBytes).length := by
  intro l
  induction l with
  | nil => simp
  | cons a as ih =>
    rw [List.flatMap_cons, List.length_append, List.length_cons]
    have := one_le_length_encBytes a
    omega

theorem length_encWant_ge (w : List ByteStr) : w.length + 2 ≤ (encWant w).length := by
  have h := length_le_length_flatMap_encBytes w
  simp only [encWant, List.length_cons, List.length_append, List.length_singleton]
  omega

theorem parseQF_id (x : HashPiece) (hx : x.wf) (acc : QueryAcc) (hnone : acc.id = none)
    (tail : ByteStr) (res : Option (KrpcQuery × ByteStr))
    (hk : ∀ g, tail.length + 1 ≤ g → parseQueryFields g { acc with id := some x } tail = res) :
    ∀ f, (encBytes [105, 100] ++ (encHashPiece x ++ tail)).length + 1 ≤ f →
      parseQueryFields f acc (encBytes [105, 100] ++ (encHashPiece x ++ tail)) = res := by
  obtain ⟨aid, atg, aih, apt, atk, aip, aw⟩ := acc
  have hnone' : aid = none := hnone
  subst hnone'
  intro f hf
  obtain ⟨f', rfl⟩ : ∃ f', f = f' + 1 := ⟨f - 1, by omega⟩
  obtain ⟨c, cs, heq, hc1, hc2⟩ := encBytes_expose [105, 100] (encHashPiece x ++ tail)
  rw [heq]
  simp only [parseQueryFields]
  rw [if_neg (by omega), ← heq, parseBytes_enc [105, 100] (by decide) _]
  simp only [Option.some_bind]
  rw [if_pos trivial]
  simp only [Option.isSome_none, Bool.false_eq_true, if_false]
  rw [parseHashPiece_enc x hx.1 tail]
  simp only [Option.some_bind]
  have hkl : (encBytes [105, 100]).length = 4 := rfl
  simp only [List.length_append] at hf
  exact hk f' (by omega)

theorem parseQF_info_hash (o : Option HashPiece) (ho : optPred HashPiece.wf o)
    (acc : QueryAcc) (hnone : acc.info_hash = none) (tail : ByteStr)
    (res : Option (KrpcQuery × ByteStr))
    (hk : ∀ g, tail.length + 1 ≤ g →
      parseQueryFields g { acc with info_hash := o } tail = res) :
    ∀ f, (encOptField [105, 110, 102, 111, 95, 104, 97, 115, 104] encHashPiece o
        ++ tail).length + 1 ≤ f →
      parseQueryFields f acc
        (encOptField [105, 110, 102, 111, 95, 104, 97, 115, 104] encHashPiece o ++ tail)
        = res := by
  obtain ⟨aid, atg, aih, apt, atk, aip, aw⟩ := acc
  have hnone' : aih = none := hnone
  subst hnone'
  intro f hf
  cases o with
  | none =>
    simp only [encOptField, List.nil_append] at hf ⊢
    exact hk f hf
  | some x =>
    have hwf : x.wf := ho
    simp only [encOptField] at hf ⊢
    rw [List.append_assoc] at hf ⊢
    obtain ⟨f', rfl⟩ : ∃ f', f = f' + 1 := ⟨f - 1, by omega⟩
    obtain ⟨c, cs, heq, hc1, hc2⟩ :=
      encBytes_expose [105, 110, 102, 111, 95, 104, 97, 115, 104] (encHashPiece x ++ tail)
    rw [heq]
    simp only [parseQueryFields]
    rw [if_neg (by omega), ← heq,
      parseBytes_enc [105, 110, 102, 111, 95, 104, 97, 115, 104] (by decide) _]
    simp only [Option.some_bind]
    rw [if_neg (by decide), if_neg (by decide), if_pos trivial]
    simp only [Option.isSome_none, Bool.false_eq_true, if_false]
    rw [parseHashPiece_enc x hwf.1 tail]
    simp only [Option.some_bind]
    have hkl : (encBytes [105, 110, 102, 111, 95, 104, 97, 115, 104]).length = 11 := rfl
    simp only [List.length_append] at hf
    exact hk f' (by omega)

theorem parseQF_port (o : Option Nat) (ho : optPred (fun p => p < 65536) o)
    (acc : QueryAcc) (hnone : acc.port = none) (tail : ByteStr)
    (res : Option (KrpcQuery × ByteStr))
    (hk : ∀ g, tail.length + 1 ≤ g → parseQueryFields g { acc with port := o } tail = res) :
    ∀ f, (encOptField [112, 111, 114, 116] (fun p => encInt p) o ++ tail).length + 1 ≤ f →
      parseQueryFields f acc (encOptField [112, 111, 114, 116] (fun p => encInt p) o ++ tail)
        = res := by
  obtain ⟨aid, atg, aih, apt, atk, aip, aw⟩ := acc
  have hnone' : apt = none := hnone
  subst hnone'
  intro f hf
  cases o with
  | none =>
    simp only [encOptField, Option.bind_eq_bind, Option.none_bind, List.nil_append] at hf ⊢
    exact hk f hf
  | some p =>
    have hp : p < 65536 := ho
    simp only [encOptField, Option.bind_eq_bind, Option.some_bind, Option.pure_def] at hf ⊢
    rw [List.append_assoc] at hf ⊢
    obtain ⟨f', rfl⟩ : ∃ f', f = f' + 1 := ⟨f - 1, by omega⟩
    obtain ⟨c, cs, heq, hc1, hc2⟩ :=
      encBytes_expose [112, 111, 114, 116] (encInt (p : Int) ++ tail)
    rw [heq]
    simp only [parseQueryFields]
    rw [if_neg (by omega), ← heq, parseBytes_enc [112, 111, 114, 116] (by decide) _]
    simp only [Option.some_bind]
    rw [if_neg (by decide), if_neg (by decide), if_neg (by decide), if_pos trivial]
    simp only [Option.isSome_none, Bool.false_eq_true, if_false]
    rw [parseU16_enc p hp tail]
    simp only [Option.some_bind]
    have hkl : (encBytes [112, 111, 114, 116]).length = 6 := rfl
    simp only [List.length_append] at hf
    exact hk f' (by omega)

theorem parseQF_token (o : Option BValue) (ho : tokenWf o)
    (acc : QueryAcc) (hnone : acc.token = none) (tail : ByteStr)
    (res : Option (KrpcQuery × ByteStr))
    (hk : ∀ g, tail.length + 1 ≤ g → parseQueryFields g { acc with token := o } tail = res) :
    ∀ f, (encOptField [116, 111, 107, 101, 110] encBValue o ++ tail).length + 1 ≤ f →
      parseQueryFields f acc (encOptField [116, 111, 107, 101, 110] encBValue o ++ tail)
        = res := by
  obtain ⟨aid, atg, aih, apt, atk, aip, aw⟩ := acc
  have hnone' : atk = none := hnone
  subst hnone'
  intro f hf
  cases o with
  | none =>
    simp only [encOptField, List.nil_append] at hf ⊢
    exact hk f hf
  | some v =>
    cases v with
    | int i => exact ho.elim
    | list l => exact ho.elim
    | dict d => exact ho.elim
    | bytes b =>
      have hb : b.length ≤ I64MAX := ho
      simp only [encOptField, encBValue] at hf ⊢
      rw [List.append_assoc] at hf ⊢
      obtain ⟨f', rfl⟩ : ∃ f', f = f' + 1 := ⟨f - 1, by omega⟩
      obtain ⟨c, cs, heq, hc1, hc2⟩ :=
        encBytes_expose [116, 111, 107, 101, 110] (encBytes b ++ tail)
      rw [heq]
      simp only [parseQueryFields]
      rw [if_neg (by omega), ← heq, parseBytes_enc [116, 111, 107, 101, 110] (by decide) _]
      simp only [Option.some_bind]
      rw [if_neg (by decide), if_neg (by decide), if_neg (by decide), if_neg (by decide),
        if_pos trivial]
      simp only [Option.isSome_none, Bool.false_eq_true, if_false]
      have hkl : (encBytes [116, 111, 107, 101, 110]).length = 7 := rfl
      simp only [List.length_append] at hf
      rw [parseBValue_encBytes b hb f' (by omega) tail]
      simp only [Option.some_bind]
      exact hk f' (by omega)

theorem parseQF_implied_port (o : Option Bool)
    (acc : QueryAcc) (hnone : acc.implied_port = none) (tail : ByteStr)
    (res : Option (KrpcQuery × ByteStr))
    (hk : ∀ g, tail.length + 1 ≤ g →
      parseQueryFields g { acc with implied_port := o } tail = res) :
    ∀ f, (encOptField [105, 109, 112, 108, 105, 101, 100, 95, 112, 111, 114, 116] encBool o
        ++ tail).length + 1 ≤ f →
      parseQueryFields f acc
        (encOptField [105, 109, 112, 108, 105, 101, 100, 95, 112, 111, 114, 116] encBool o
          ++ tail) = res := by
  obtain ⟨aid, atg, aih, apt, atk, aip, aw⟩ := acc
  have hnone' : aip = none := hnone
  subst hnone'
  intro f hf
  cases o with
  | none =>
    simp only [encOptField, List.nil_append] at hf ⊢
    exact hk f hf
  | some b =>
    simp only [encOptField] at hf ⊢
    rw [List.append_assoc] at hf ⊢
    obtain ⟨f', rfl⟩ : ∃ f', f = f' + 1 := ⟨f - 1, by omega⟩
    obtain ⟨c, cs, heq, hc1, hc2⟩ :=
      encBytes_expose [105, 109, 112, 108, 105, 101, 100, 95, 112, 111, 114, 116]
        (encBool b ++ tail)
    rw [heq]
    simp only [parseQueryFields]
    rw [if_neg (by omega), ← heq,
      parseBytes_enc [105, 109, 112, 108, 105, 101, 100, 95, 112, 111, 114, 116]
        (by decide) _]
    simp only [Option.some_bind]
    rw [if_neg (by decide), if_neg (by decide), if_neg (by decide), if_neg (by decide),
      if_neg (by decide), if_pos trivial]
    simp only [Option.isSome_none, Bool.false_eq_true, if_false]
    rw [parseBool_encBool b tail]
    simp only [Option.some_bind]
    have hkl :
        (encBytes [105, 109, 112, 108, 105, 101, 100, 95, 112, 111, 114, 116]).length = 15 :=
      rfl
    simp only [List.length_append] at hf
    exact hk f' (by omega)

theorem parseQF_want (w : List ByteStr) (hw : ∀ x ∈ w, x.length ≤ I64MAX)
    (acc : QueryAcc) (hnone : acc.want = none) (tail : ByteStr)
    (res : Option (KrpcQuery × ByteStr))
    (hk : ∀ g, tail.length + 1 ≤ g →
      parseQueryFields g
        { acc with want := match w with | [] => none | _ => some w } tail = res) :
    ∀ f, ((match w with
        | [] => ([] : ByteStr)
        | _ => encBytes [119, 97, 110, 116] ++ encWant w) ++ tail).length + 1 ≤ f →
      parseQueryFields f acc
        ((match w with
          | [] => ([] : ByteStr)
          | _ => encBytes [119, 97, 110, 116] ++ encWant w) ++ tail) = res := by
  obtain ⟨aid, atg, aih, apt, atk, aip, aw⟩ := acc
  have hnone' : aw = none := hnone
  subst hnone'
  intro f hf
  cases w with
  | nil =>
    simp only [List.nil_append] at hf ⊢
    exact hk f hf
  | cons w0 ws =>
    simp only at hf ⊢
    rw [List.append_assoc] at hf ⊢
    obtain ⟨f', rfl⟩ : ∃ f', f = f' + 1 := ⟨f - 1, by omega⟩
    obtain ⟨c, cs, heq, hc1, hc2⟩ :=
      encBytes_expose [119, 97, 110, 116] (encWant (w0 :: ws) ++ tail)
    rw [heq]
    simp only [parseQueryFields]
    rw [if_neg (by omega), ← heq, parseBytes_enc [119, 97, 110, 116] (by decide) _]
    simp only [Option.some_bind]
    rw [if_neg (by decide), if_neg (by decide), if_neg (by decide), if_neg (by decide),
      if_neg (by decide), if_neg (by decide), if_pos trivial]
    simp only [Option.isSome_none, Bool.false_eq_true, if_false]
    have hwl := length_encWant_ge (w0 :: ws)
    have hkl : (encBytes [119, 97, 110, 116]).length = 6 := rfl
    simp only [List.length_append] at hf
    rw [parseWant_enc (w0 :: ws) hw f' (by omega) tail]
    simp only [Option.some_bind]
    exact hk f' (by omega)

theorem parseKrpcQueryStruct_enc (q : KrpcQuery) (hq : KrpcQueryWellFormed q)
    (rest : ByteStr) :
    ∀ fuel, (encKrpcQuery q ++ rest).length ≤ fuel →
      parseKrpcQueryStruct fuel (encKrpcQuery q ++ rest) = some (q, rest) := by
  obtain ⟨qid, qtg, qih, qpt, qtk, qip, qw⟩ := q
  obtain ⟨hid, htg, hih, hpt, htk, hwant⟩ := hq
  have hwlen : ∀ x ∈ qw, x.length ≤ I64MAX := by
    intro x hx
    rcases hwant x hx with rfl | rfl <;> decide
  intro fuel hf
  rcases qw with _ | ⟨w0, ws⟩
  · simp only [encKrpcQuery, List.append_assoc, List.cons_append, List.nil_append,
      List.singleton_append] at hf ⊢
    simp only [List.length_cons, List.length_append] at hf
    have s_end : ∀ g, (101 :: rest).length + 1 ≤ g →
        parseQueryFields g ⟨some qid, qtg, qih, qpt, qtk, qip, none⟩ (101 :: rest)
          = some (⟨qid, qtg, qih, qpt, qtk, qip, []⟩, rest) := by
      intro g hg
      exact parseQF_end ⟨some qid, qtg, qih, qpt, qtk, qip, none⟩ qid rfl g (by omega) rest
    have s_token := parseQF_token qtk htk ⟨some qid, qtg, qih, qpt, none, qip, none⟩ rfl
      _ _ s_end
    have s_target := parseQF_target qtg htg ⟨some qid, none, qih, qpt, none, qip, none⟩ rfl
      _ _ s_token
    have s_port := parseQF_port qpt hpt ⟨some qid, none, qih, none, none, qip, none⟩ rfl
      _ _ s_target
    have s_ih := parseQF_info_hash qih hih ⟨some qid, none, none, none, none, qip, none⟩ rfl
      _ _ s_port
    have s_ip := parseQF_implied_port qip ⟨some qid, none, none, none, none, none, none⟩ rfl
      _ _ s_ih
    have s_id := parseQF_id qid hid ⟨none, none, none, none, none, none, none⟩ rfl
      _ _ s_ip
    simp only [parseKrpcQueryStruct]
    exact s_id fuel (by simp only [List.length_append, List.length_cons]; omega)
  · simp only [encKrpcQuery, List.append_assoc, List.cons_append, List.nil_append,
      List.singleton_append] at hf ⊢
    simp only [List.length_cons, List.length_append] at hf
    have s_end : ∀ g, (101 :: rest).length + 1 ≤ g →
        parseQueryFields g ⟨some qid, qtg, qih, qpt, qtk, qip, some (w0 :: ws)⟩ (101 :: rest)
          = some (⟨qid, qtg, qih, qpt, qtk, qip, w0 :: ws⟩, rest) := by
      intro g hg
      exact parseQF_end ⟨some qid, qtg, qih, qpt, qtk, qip, some (w0 :: ws)⟩ qid rfl g
        (by omega) rest
    have s_want := parseQF_want (w0 :: ws) hwlen
      ⟨some qid, qtg, qih, qpt, qtk, qip, none⟩ rfl _ _ s_end
    have s_token := parseQF_token qtk htk ⟨some qid, qtg, qih, qpt, none, qip, none⟩ rfl
      _ _ s_want
    have s_target := parseQF_target qtg htg ⟨some qid, none, qih, qpt, none, qip, none⟩ rfl
      _ _ s_token
    have s_port := parseQF_port qpt hpt ⟨some qid, none, qih, none, none, qip, none⟩ rfl
      _ _ s_target
    have s_ih := parseQF_info_hash qih hih ⟨some qid, none, none, none, none, qip, none⟩ rfl
      _ _ s_port
    have s_ip := parseQF_implied_port qip ⟨some qid, none, none, none, none, none, none⟩ rfl
      _ _ s_ih
    have s_id := parseQF_id qid hid ⟨none, none, none, none, none, none, none⟩ rfl
      _ _ s_ip
    simp only [parseKrpcQueryStruct]
    exact s_id fuel (by simp only [List.length_append, List.length_cons]; omega)

theorem parseRF_end (acc : RespAcc) (idv : HashPiece) (hid : acc.id = some idv) :
    ∀ f, 1 ≤ f → ∀ (rest : ByteStr),
      parseRespFields f acc (101 :: rest)
        = some (⟨idv, acc.nodes, acc.nodes6, acc.token, acc.values⟩, rest) := by
  intro f hf rest
  obtain ⟨f', rfl⟩ : ∃ f', f = f' + 1 := ⟨f - 1, by omega⟩
  simp only [parseRespFields]
  rw [if_pos trivial, hid]

theorem parseRF_id (x : HashPiece) (hx : x.wf) (acc : RespAcc) (hnone : acc.id = none)
    (tail : ByteStr) (res : Option (KrpcResponse × ByteStr))
    (hk : ∀ g, tail.length + 1 ≤ g → parseRespFields g { acc with id := some x } tail = res) :
    ∀ f, (encBytes [105, 100] ++ (encHashPiece x ++ tail)).length + 1 ≤ f →
      parseRespFields f acc (encBytes [105, 100] ++ (encHashPiece x ++ tail)) = res := by
  obtain ⟨aid, an4, an6, atk, avl⟩ := acc
  have hnone' : aid = none := hnone
  subst hnone'
  intro f hf
  obtain ⟨f', rfl⟩ : ∃ f', f = f' + 1 := ⟨f - 1, by omega⟩
  obtain ⟨c, cs, heq, hc1, hc2⟩ := encBytes_expose [105, 100] (encHashPiece x ++ tail)
  rw [heq]
  simp only [parseRespFields]
  rw [if_neg (by omega), ← heq, parseBytes_enc [105, 100] (by decide) _]
  simp only [Option.some_bind]
  rw [if_pos trivial]
  simp only [Option.isSome_none, Bool.false_eq_true, if_false]
  rw [parseHashPiece_enc x hx.1 tail]
  simp only [Option.some_bind]
  have hkl : (encBytes [105, 100]).length = 4 := rfl
  simp only [List.length_append] at hf
  exact hk f' (by omega)

theorem parseRF_nodes (o : Option (List Node))
    (ho : optPred (fun l => (l.flatMap compactNode).length ≤ I64MAX ∧
      parseCompactNodesBuf (l.flatMap compactNode) = some l) o)
    (acc : RespAcc) (hnone : acc.nodes = none) (tail : ByteStr)
    (res : Option (KrpcResponse × ByteStr))
    (hk : ∀ g, tail.length + 1 ≤ g → parseRespFields g { acc with nodes := o } tail = res) :
    ∀ f, (encOptField [110, 111, 100, 101, 115] encCompactNodes o ++ tail).length + 1 ≤ f →
      parseRespFields f acc (encOptField [110, 111, 100, 101, 115] encCompactNodes o ++ tail)
        = res := by
  obtain ⟨aid, an4, an6, atk, avl⟩ := acc
  have hnone' : an4 = none := hnone
  subst hnone'
  intro f hf
  cases o with
  | none =>
    simp only [encOptField, List.nil_append] at hf ⊢
    exact hk f hf
  | some l =>
    have hl : (l.flatMap compactNode).length ≤ I64MAX ∧
        parseCompactNodesBuf (l.flatMap compactNode) = some l := ho
    simp only [encOptField] at hf ⊢
    rw [List.append_assoc] at hf ⊢
    obtain ⟨f', rfl⟩ : ∃ f', f = f' + 1 := ⟨f - 1, by omega⟩
    obtain ⟨c, cs, heq, hc1, hc2⟩ :=
      encBytes_expose [110, 111, 100, 101, 115] (encCompactNodes l ++ tail)
    rw [heq]
    simp only [parseRespFields]
    rw [if_neg (by omega), ← heq, parseBytes_enc [110, 111, 100, 101, 115] (by decide) _]
    simp only [Option.some_bind]
    rw [if_neg (by decide), if_pos trivial]
    simp only [Option.isSome_none, Bool.false_eq_true, if_false]
    rw [parseCompactNodes_enc l hl.1 hl.2 tail]
    simp only [Option.some_bind]
    have hkl : (encBytes [110, 111, 100, 101, 115]).length = 7 := rfl
    simp only [List.length_append] at hf
    exact hk f' (by omega)

theorem parseRF_nodes6 (o : Option (List Node))
    (ho : optPred (fun l => (l.flatMap compactNode).length ≤ I64MAX ∧
      parseCompactNodesBuf (l.flatMap compactNode) = some l) o)
    (acc : RespAcc) (hnone : acc.nodes6 = none) (tail : ByteStr)
    (res : Option (KrpcResponse × ByteStr))
    (hk : ∀ g, tail.length + 1 ≤ g → parseRespFields g { acc with nodes6 := o } tail = res) :
    ∀ f, (encOptField [110, 111, 100, 101, 115, 54] encCompactNodes o ++ tail).length + 1 ≤ f →
      parseRespFields f acc
        (encOptField [110, 111, 100, 101, 115, 54] encCompactNodes o ++ tail) = res := by
  obtain ⟨aid, an4, an6, atk, avl⟩ := acc
  have hnone' : an6 = none := hnone
  subst hnone'
  intro f hf
  cases o with
  | none =>
    simp only [encOptField, List.nil_append] at hf ⊢
    exact hk f hf
  | some l =>
    have hl : (l.flatMap compactNode).length ≤ I64MAX ∧
        parseCompactNodesBuf (l.flatMap compactNode) = some l := ho
    simp only [encOptField] at hf ⊢
    rw [List.append_assoc] at hf ⊢
    obtain ⟨f', rfl⟩ : ∃ f', f = f' + 1 := ⟨f - 1, by omega⟩
    obtain ⟨c, cs, heq, hc1, hc2⟩ :=
      encBytes_expose [110, 111, 100, 101, 115, 54] (encCompactNodes l ++ tail)
    rw [heq]
    simp only [parseRespFields]
    rw [if_neg (by omega), ← heq,
      parseBytes_enc [110, 111, 100, 101, 115, 54] (by decide) _]
    simp only [Option.some_bind]
    rw [if_neg (by decide), if_neg (by decide), if_pos trivial]
    simp only [Option.isSome_none, Bool.false_eq_true, if_false]
    rw [parseCompactNodes_enc l hl.1 hl.2 tail]
    simp only [Option.some_bind]
    have hkl : (encBytes [110, 111, 100, 101, 115, 54]).length = 8 := rfl
    simp only [List.length_append] at hf
    exact hk f' (by omega)

theorem parseRF_token (o : Option BValue) (ho : tokenWf o)
    (acc : RespAcc) (hnone : acc.token = none) (tail : ByteStr)
    (res : Option (KrpcResponse × ByteStr))
    (hk : ∀ g, tail.length + 1 ≤ g → parseRespFields g { acc with token := o } tail = res) :
    ∀ f, (encOptField [116, 111, 107, 101, 110] encBValue o ++ tail).length + 1 ≤ f →
      parseRespFields f acc (encOptField [116, 111, 107, 101, 110] encBValue o ++ tail)
        = res := by
  obtain ⟨aid, an4, an6, atk, avl⟩ := acc
  have hnone' : atk = none := hnone
  subst hnone'
  intro f hf
  cases o with
  | none =>
    simp only [encOptField, List.nil_append] at hf ⊢
    exact hk f hf
  | some v =>
    cases v with
    | int i => exact ho.elim
    | list l => exact ho.elim
    | dict d => exact ho.elim
    | bytes b =>
      have hb : b.length ≤ I64MAX := ho
      simp only [encOptField, encBValue] at hf ⊢
      rw [List.append_assoc] at hf ⊢
      obtain ⟨f', rfl⟩ : ∃ f', f = f' + 1 := ⟨f - 1, by omega⟩
      obtain ⟨c, cs, heq, hc1, hc2⟩ :=
        encBytes_expose [116, 111, 107, 101, 110] (encBytes b ++ tail)
      rw [heq]
      simp only [parseRespFields]
      rw [if_neg (by omega), ← heq, parseBytes_enc [116, 111, 107, 101, 110] (by decide) _]
      simp only [Option.some_bind]
      rw [if_neg (by decide), if_neg (by decide), if_neg (by decide), if_pos trivial]
      simp only [Option.isSome_none, Bool.false_eq_true, if_false]
      have hkl : (encBytes [116, 111, 107, 101, 110]).length = 7 := rfl
      simp only [List.length_append] at hf
      rw [parseBValue_encBytes b hb f' (by omega) tail]
      simp only [Option.some_bind]
      exact hk f' (by omega)

theorem parseRF_values (o : Option (List PeerAddress))
    (ho : optPred (fun l => (l.flatMap compactPeerAddress).length ≤ I64MAX ∧
      parseCompactAddressesBuf (l.flatMap compactPeerAddress) = some l) o)
    (acc : RespAcc) (hnone : acc.values = none) (tail : ByteStr)
    (res : Option (KrpcResponse × ByteStr))
    (hk : ∀ g, tail.length + 1 ≤ g → parseRespFields g { acc with values := o } tail = res) :
    ∀ f, (encOptField [118, 97, 108, 117, 101, 115] encCompactAddresses o ++ tail).length + 1
        ≤ f →
      parseRespFields f acc
        (encOptField [118, 97, 108, 117, 101, 115] encCompactAddresses o ++ tail) = res := by
  obtain ⟨aid, an4, an6, atk, avl⟩ := acc
  have hnone' : avl = none := hnone
  subst hnone'
  intro f hf
  cases o with
  | none =>
    simp only [encOptField, List.nil_append] at hf ⊢
    exact hk f hf
  | some l =>
    have hl : (l.flatMap compactPeerAddress).length ≤ I64MAX ∧
        parseCompactAddressesBuf (l.flatMap compactPeerAddress) = some l := ho
    simp only [encOptField] at hf ⊢
    rw [List.append_assoc] at hf ⊢
    obtain ⟨f', rfl⟩ : ∃ f', f = f' + 1 := ⟨f - 1, by omega⟩
    obtain ⟨c, cs, heq, hc1, hc2⟩ :=
      encBytes_expose [118, 97, 108, 117, 101, 115] (encCompactAddresses l ++ tail)
    rw [heq]
    simp only [parseRespFields]
    rw [if_neg (by omega), ← heq,
      parseBytes_enc [118, 97, 108, 117, 101, 115] (by decide) _]
    simp only [Option.some_bind]
    rw [if_neg (by decide), if_neg (by decide), if_neg (by decide), if_neg (by decide),
      if_pos trivial]
    simp only [Option.isSome_none, Bool.false_eq_true, if_false]
    rw [parseCompactAddresses_enc l hl.1 hl.2 tail]
    simp only [Option.some_bind]
    have hkl : (encBytes [118, 97, 108, 117, 101, 115]).length = 8 := rfl
    simp only [List.length_append] at hf
    exact hk f' (by omega)

theorem parseKrpcRespStruct_enc (r : KrpcResponse) (hr : KrpcResponseWellFormed r)
    (hs : optPred (fun l => (∀ a ∈ l, addrWfV4 a) ∧ l.length % 3 = 0) r.values ∧
          optPred (fun l : List Node => l.length % 13 ≠ 0 ∨ l = []) r.nodes6)
    (rest : ByteStr) :
    ∀ fuel, (encKrpcResponse r ++ rest).length ≤ fuel →
      parseKrpcRespStruct fuel (encKrpcResponse r ++ rest) = some (r, rest) := by
  obtain ⟨rid, rn4, rn6, rtk, rvl⟩ := r
  obtain ⟨hid, hn4, hn6, htk, hvl⟩ := hr
  obtain ⟨hsv, hs6⟩ := hs
  have hn4' : optPred (fun l => (l.flatMap compactNode).length ≤ I64MAX ∧
      parseCompactNodesBuf (l.flatMap compactNode) = some l) rn4 := by
    cases rn4 with
    | none => trivial
    | some l =>
      have hl : (∀ n ∈ l, nodeWfV4 n) ∧ l.length * 38 ≤ I64MAX := hn4
      have hflat : (l.flatMap compactNode).length = l.length * 26 :=
        length_flatMap_const _ _ l (fun x hx => compactNode_length_v4 x (hl.1 x hx))
      exact ⟨by omega, parseCompactNodesBuf_v4 l hl.1⟩
  have hn6' : optPred (fun l => (l.flatMap compactNode).length ≤ I64MAX ∧
      parseCompactNodesBuf (l.flatMap compactNode) = some l) rn6 := by
    cases rn6 with
    | none => trivial
    | some l =>
      have hl : (∀ n ∈ l, nodeWfV6 n) ∧ l.length * 38 ≤ I64MAX := hn6
      have hsafe : l.length % 13 ≠ 0 ∨ l = [] := hs6
      have hflat : (l.flatMap compactNode).length = l.length * 38 :=
        length_flatMap_const _ _ l (fun x hx => compactNode_length_v6 x (hl.1 x hx))
      exact ⟨by omega, parseCompactNodesBuf_v6 l hl.1 hsafe⟩
  have hvl' : optPred (fun l => (l.flatMap compactPeerAddress).length ≤ I64MAX ∧
      parseCompactAddressesBuf (l.flatMap compactPeerAddress) = some l) rvl := by
    cases rvl with
    | none => trivial
    | some l =>
      have hl : (∀ a ∈ l, addrWfV4 a ∨ addrWfV6 a) ∧ l.length * 18 ≤ I64MAX := hvl
      have hsafe : (∀ a ∈ l, addrWfV4 a) ∧ l.length % 3 = 0 := hsv
      have hflat : (l.flatMap compactPeerAddress).length = l.length * 6 :=
        length_flatMap_const _ _ l (fun x hx => compactPeerAddress_length_v4 x (hsafe.1 x hx))
      exact ⟨by omega, parseCompactAddressesBuf_v4 l hsafe.1 hsafe.2⟩
  intro fuel hf
  simp only [encKrpcResponse, List.append_assoc, List.cons_append, List.nil_append,
    List.singleton_append] at hf ⊢
  simp only [List.length_cons, List.length_append] at hf
  have s_end : ∀ g, (101 :: rest).length + 1 ≤ g →
      parseRespFields g ⟨some rid, rn4, rn6, rtk, rvl⟩ (101 :: rest)
        = some (⟨rid, rn4, rn6, rtk, rvl⟩, rest) := by
    intro g hg
    exact parseRF_end ⟨some rid, rn4, rn6, rtk, rvl⟩ rid rfl g (by omega) rest
  have s_values := parseRF_values rvl hvl' ⟨some rid, rn4, rn6, rtk, none⟩ rfl _ _ s_end
  have s_token := parseRF_token rtk htk ⟨some rid, rn4, rn6, none, none⟩ rfl _ _ s_values
  have s_nodes6 := parseRF_nodes6 rn6 hn6' ⟨some rid, rn4, none, none, none⟩ rfl _ _ s_token
  have s_nodes := parseRF_nodes rn4 hn4' ⟨some rid, none, none, none, none⟩ rfl _ _ s_nodes6
  have s_id := parseRF_id rid hid ⟨none, none, none, none, none⟩ rfl _ _ s_nodes
  simp only [parseKrpcRespStruct]
  exact s_id fuel (by simp only [List.length_append, List.length_cons]; omega)

theorem errorCode_bounds (c : Int)
    (h : c ∈ ([201, 202, 203, 204, 205, 206, 207, 301, 302] : List Int)) :
    0 ≤ c ∧ c ≤ ((I64MAX : Nat) : Int) := by
  simp only [List.mem_cons, List.not_mem_nil, or_false] at h
  rcases h with rfl | rfl | rfl | rfl | rfl | rfl | rfl | rfl | rfl <;>
    exact ⟨by norm_num, by norm_num [I64MAX]⟩

theorem parseMF_end (acc : MsgAcc) (tv : ByteStr) (yv : MessageType)
    (ht : acc.t = some tv) (hy : acc.y = some yv) :
    ∀ f, 1 ≤ f → ∀ (rest : ByteStr),
      parseMessageFields f acc (101 :: rest)
        = some (⟨tv, yv, acc.q, acc.a, acc.r, acc.e, acc.ro⟩, rest) := by
  intro f hf rest
  obtain ⟨f', rfl⟩ : ∃ f', f = f' + 1 := ⟨f - 1, by omega⟩
  simp only [parseMessageFields]
  rw [if_pos trivial, ht, hy]

theorem parseMF_t (tv : ByteStr) (hlen : tv.length ≤ I64MAX)
    (acc : MsgAcc) (hnone : acc.t = none) (tail : ByteStr)
    (res : Option (KrpcMessage × ByteStr))
    (hk : ∀ g, tail.length + 1 ≤ g → parseMessageFields g { acc with t := some tv } tail = res) :
    ∀ f, (encBytes [116] ++ (encBytes tv ++ tail)).length + 1 ≤ f →
      parseMessageFields f acc (encBytes [116] ++ (encBytes tv ++ tail)) = res := by
  obtain ⟨at0, ay, aq, aa, ar, ae, aro⟩ := acc
  have hnone' : at0 = none := hnone
  subst hnone'
  intro f hf
  obtain ⟨f', rfl⟩ : ∃ f', f = f' + 1 := ⟨f - 1, by omega⟩
  obtain ⟨c, cs, heq, hc1, hc2⟩ := encBytes_expose [116] (encBytes tv ++ tail)
  rw [heq]
  simp only [parseMessageFields]
  rw [if_neg (by omega), ← heq, parseBytes_enc [116] (by decide) _]
  simp only [Option.some_bind]
  rw [if_pos trivial]
  simp only [Option.isSome_none, Bool.false_eq_true, if_false]
  rw [parseBytes_enc tv hlen tail]
  simp only [Option.some_bind]
  have hkl : (encBytes [116]).length = 3 := rfl
  simp only [List.length_append] at hf
  exact hk f' (by omega)

theorem parseMF_y (yv : MessageType)
    (acc : MsgAcc) (hnone : acc.y = none) (tail : ByteStr)
    (res : Option (KrpcMessage × ByteStr))
    (hk : ∀ g, tail.length + 1 ≤ g → parseMessageFields g { acc with y := some yv } tail = res) :
    ∀ f, (encBytes [121] ++ (encMessageType yv ++ tail)).length + 1 ≤ f →
      parseMessageFields f acc (encBytes [121] ++ (encMessageType yv ++ tail)) = res := by
  obtain ⟨at0, ay, aq, aa, ar, ae, aro⟩ := acc
  have hnone' : ay = none := hnone
  subst hnone'
  intro f hf
  obtain ⟨f', rfl⟩ : ∃ f', f = f' + 1 := ⟨f - 1, by omega⟩
  obtain ⟨c, cs, heq, hc1, hc2⟩ := encBytes_expose [121] (encMessageType yv ++ tail)
  rw [heq]
  simp only [parseMessageFields]
  rw [if_neg (by omega), ← heq, parseBytes_enc [121] (by decide) _]
  simp only [Option.some_bind]
  rw [if_neg (by decide), if_pos trivial]
  simp only [Option.isSome_none, Bool.false_eq_true, if_false]
  rw [parseMessageType_enc yv tail]
  simp only [Option.some_bind]
  have hkl : (encBytes [121]).length = 3 := rfl
  simp only [List.length_append] at hf
  exact hk f' (by omega)

theorem parseMF_q (o : Option QueryType)
    (acc : MsgAcc) (hnone : acc.q = none) (tail : ByteStr)
    (res : Option (KrpcMessage × ByteStr))
    (hk : ∀ g, tail.length + 1 ≤ g → parseMessageFields g { acc with q := o } tail = res) :
    ∀ f, (encOptField [113] encQueryType o ++ tail).length + 1 ≤ f →
      parseMessageFields f acc (encOptField [113] encQueryType o ++ tail) = res := by
  obtain ⟨at0, ay, aq, aa, ar, ae, aro⟩ := acc
  have hnone' : aq = none := hnone
  subst hnone'
  intro f hf
  cases o with
  | none =>
    simp only [encOptField, List.nil_append] at hf ⊢
    exact hk f hf
  | some qv =>
    simp only [encOptField] at hf ⊢
    rw [List.append_assoc] at hf ⊢
    obtain ⟨f', rfl⟩ : ∃ f', f = f' + 1 := ⟨f - 1, by omega⟩
    obtain ⟨c, cs, heq, hc1, hc2⟩ := encBytes_expose [113] (encQueryType qv ++ tail)
    rw [heq]
    simp only [parseMessageFields]
    rw [if_neg (by omega), ← heq, parseBytes_enc [113] (by decide) _]
    simp only [Option.some_bind]
    rw [if_neg (by decide), if_neg (by decide), if_pos trivial]
    simp only [Option.isSome_none, Bool.false_eq_true, if_false]
    rw [parseQueryType_enc qv tail]
    simp only [Option.some_bind]
    have hkl : (encBytes [113]).length = 3 := rfl
    simp only [List.length_append] at hf
    exact hk f' (by omega)

theorem parseMF_a (o : Option KrpcQuery) (ho : optPred KrpcQueryWellFormed o)
    (acc : MsgAcc) (hnone : acc.a = none) (tail : ByteStr)
    (res : Option (KrpcMessage × ByteStr))
    (hk : ∀ g, tail.length + 1 ≤ g → parseMessageFields g { acc with a := o } tail = res) :
    ∀ f, (encOptField [97] encKrpcQuery o ++ tail).length + 1 ≤ f →
      parseMessageFields f acc (encOptField [97] encKrpcQuery o ++ tail) = res := by
  obtain ⟨at0, ay, aq, aa, ar, ae, aro⟩ := acc
  have hnone' : aa = none := hnone
  subst hnone'
  intro f hf
  cases o with
  | none =>
    simp only [encOptField, List.nil_append] at hf ⊢
    exact hk f hf
  | some qv =>
    have hq : KrpcQueryWellFormed qv := ho
    simp only [encOptField] at hf ⊢
    rw [List.append_assoc] at hf ⊢
    obtain ⟨f', rfl⟩ : ∃ f', f = f' + 1 := ⟨f - 1, by omega⟩
    obtain ⟨c, cs, heq, hc1, hc2⟩ := encBytes_expose [97] (encKrpcQuery qv ++ tail)
    rw [heq]
    simp only [parseMessageFields]
    rw [if_neg (by omega), ← heq, parseBytes_enc [97] (by decide) _]
    simp only [Option.some_bind]
    rw [if_neg (by decide), if_neg (by decide), if_neg (by decide), if_pos trivial]
    simp only [Option.isSome_none, Bool.false_eq_true, if_false]
    have hkl : (encBytes [97]).length = 3 := rfl
    simp only [List.length_append] at hf
    rw [parseKrpcQueryStruct_enc qv hq tail f' (by simp only [List.length_append]; omega)]
    simp only [Option.some_bind]
    exact hk f' (by omega)

theorem parseMF_r (o : Option KrpcResponse) (ho : optPred KrpcResponseWellFormed o)
    (hos : optPred (fun r =>
      optPred (fun l => (∀ a ∈ l, addrWfV4 a) ∧ l.length % 3 = 0) r.values ∧
      optPred (fun l : List Node => l.length % 13 ≠ 0 ∨ l = []) r.nodes6) o)
    (acc : MsgAcc) (hnone : acc.r = none) (tail : ByteStr)
    (res : Option (KrpcMessage × ByteStr))
    (hk : ∀ g, tail.length + 1 ≤ g → parseMessageFields g { acc with r := o } tail = res) :
    ∀ f, (encOptField [114] encKrpcResponse o ++ tail).length + 1 ≤ f →
      parseMessageFields f acc (encOptField [114] encKrpcResponse o ++ tail) = res := by
  obtain ⟨at0, ay, aq, aa, ar, ae, aro⟩ := acc
  have hnone' : ar = none := hnone
  subst hnone'
  intro f hf
  cases o with
  | none =>
    simp only [encOptField, List.nil_append] at hf ⊢
    exact hk f hf
  | some rv =>
    have hr : KrpcResponseWellFormed rv := ho
    have hrs : optPred (fun l => (∀ a ∈ l, addrWfV4 a) ∧ l.length % 3 = 0) rv.values ∧
        optPred (fun l : List Node => l.length % 13 ≠ 0 ∨ l = []) rv.nodes6 := hos
    simp only [encOptField] at hf ⊢
    rw [List.append_assoc] at hf ⊢
    obtain ⟨f', rfl⟩ : ∃ f', f = f' + 1 := ⟨f - 1, by omega⟩
    obtain ⟨c, cs, heq, hc1, hc2⟩ := encBytes_expose [114] (encKrpcResponse rv ++ tail)
    rw [heq]
    simp only [parseMessageFields]
    rw [if_neg (by omega), ← heq, parseBytes_enc [114] (by decide) _]
    simp only [Option.some_bind]
    rw [if_neg (by decide), if_neg (by decide), if_neg (by decide), if_neg (by decide),
      if_pos trivial]
    simp only [Option.isSome_none, Bool.false_eq_true, if_false]
    have hkl : (encBytes [114]).length = 3 := rfl
    simp only [List.length_append] at hf
    rw [parseKrpcRespStruct_enc rv hr hrs tail f' (by simp only [List.length_append]; omega)]
    simp only [Option.some_bind]
    exact hk f' (by omega)

theorem parseMF_e (o : Option KrpcError) (ho : optPred KrpcErrorWellFormed o)
    (acc : MsgAcc) (hnone : acc.e = none) (tail : ByteStr)
    (res : Option (KrpcMessage × ByteStr))
    (hk : ∀ g, tail.length + 1 ≤ g → parseMessageFields g { acc with e := o } tail = res) :
    ∀ f, (encOptField [101] encKrpcError o ++ tail).length + 1 ≤ f →
      parseMessageFields f acc (encOptField [101] encKrpcError o ++ tail) = res := by
  obtain ⟨at0, ay, aq, aa, ar, ae, aro⟩ := acc
  have hnone' : ae = none := hnone
  subst hnone'
  intro f hf
  cases o with
  | none =>
    simp only [encOptField, List.nil_append] at hf ⊢
    exact hk f hf
  | some ev =>
    obtain ⟨ecode, edesc⟩ := ev
    have he : KrpcErrorWellFormed ⟨ecode, edesc⟩ := ho
    have hb := errorCode_bounds ecode he.1
    simp only [encOptField] at hf ⊢
    rw [List.append_assoc] at hf ⊢
    obtain ⟨f', rfl⟩ : ∃ f', f = f' + 1 := ⟨f - 1, by omega⟩
    obtain ⟨c, cs, heq, hc1, hc2⟩ :=
      encBytes_expose [101] (encKrpcError ⟨ecode, edesc⟩ ++ tail)
    rw [heq]
    simp only [parseMessageFields]
    rw [if_neg (by omega), ← heq, parseBytes_enc [101] (by decide) _]
    simp only [Option.some_bind]
    rw [if_neg (by decide), if_neg (by decide), if_neg (by decide), if_neg (by decide),
      if_neg (by decide), if_pos trivial]
    simp only [Option.isSome_none, Bool.false_eq_true, if_false]
    rw [parseKrpcError_enc ecode edesc hb.1 hb.2 he.2 tail]
    simp only [Option.some_bind]
    have hkl : (encBytes [101]).length = 3 := rfl
    simp only [List.length_append] at hf
    exact hk f' (by omega)

theorem parseMF_ro (o : Option Bool)
    (acc : MsgAcc) (hnone : acc.ro = none) (tail : ByteStr)
    (res : Option (KrpcMessage × ByteStr))
    (hk : ∀ g, tail.length + 1 ≤ g → parseMessageFields g { acc with ro := o } tail = res) :
    ∀ f, (encOptField [114, 111] encBool o ++ tail).length + 1 ≤ f →
      parseMessageFields f acc (encOptField [114, 111] encBool o ++ tail) = res := by
  obtain ⟨at0, ay, aq, aa, ar, ae, aro⟩ := acc
  have hnone' : aro = none := hnone
  subst hnone'
  intro f hf
  cases o with
  | none =>
    simp only [encOptField, List.nil_append] at hf ⊢
    exact hk f hf
  | some b =>
    simp only [encOptField] at hf ⊢
    rw [List.append_assoc] at hf ⊢
    obtain ⟨f', rfl⟩ : ∃ f', f = f' + 1 := ⟨f - 1, by omega⟩
    obtain ⟨c, cs, heq, hc1, hc2⟩ := encBytes_expose [114, 111] (encBool b ++ tail)
    rw [heq]
    simp only [parseMessageFields]
    rw [if_neg (by omega), ← heq, parseBytes_enc [114, 111] (by decide) _]
    simp only [Option.some_bind]
    rw [if_neg (by decide), if_neg (by decide), if_neg (by decide), if_neg (by decide),
      if_neg (by decide), if_neg (by decide), if_pos trivial]
    simp only [Option.isSome_none, Bool.false_eq_true, if_false]
    rw [parseBool_encBool b tail]
    simp only [Option.some_bind]
    have hkl : (encBytes [114, 111]).length = 4 := rfl
    simp only [List.length_append] at hf
    exact hk f' (by omega)

theorem parseKrpcMessage_enc (m : KrpcMessage) (hm : KrpcMessageWellFormed m)
    (hsafe : RoundTripSafe m) (rest : ByteStr) :
    ∀ fuel, (encKrpcMessage m ++ rest).length ≤ fuel →
      parseKrpcMessage fuel (encKrpcMessage m ++ rest) = some (m, rest) := by
  obtain ⟨mt, my, mq, ma, mr, me, mro⟩ := m
  obtain ⟨htl, -, hoa, hor, hoe⟩ := hm
  have hos : optPred (fun r =>
      optPred (fun l => (∀ a ∈ l, addrWfV4 a) ∧ l.length % 3 = 0) r.values ∧
      optPred (fun l : List Node => l.length % 13 ≠ 0 ∨ l = []) r.nodes6) mr := hsafe
  intro fuel hf
  simp only [encKrpcMessage, List.append_assoc, List.cons_append, List.nil_append,
    List.singleton_append] at hf ⊢
  simp only [List.length_cons, List.length_append] at hf
  have s_end : ∀ g, (101 :: rest).length + 1 ≤ g →
      parseMessageFields g ⟨some mt, some my, mq, ma, mr, me, mro⟩ (101 :: rest)
        = some (⟨mt, my, mq, ma, mr, me, mro⟩, rest) := by
    intro g hg
    exact parseMF_end ⟨some mt, some my, mq, ma, mr, me, mro⟩ mt my rfl rfl g (by omega) rest
  have s_y := parseMF_y my ⟨some mt, none, mq, ma, mr, me, mro⟩ rfl _ _ s_end
  have s_t := parseMF_t mt htl ⟨none, none, mq, ma, mr, me, mro⟩ rfl _ _ s_y
  have s_ro := parseMF_ro mro ⟨none, none, mq, ma, mr, me, none⟩ rfl _ _ s_t
  have s_r := parseMF_r mr hor hos ⟨none, none, mq, ma, none, me, none⟩ rfl _ _ s_ro
  have s_q := parseMF_q mq ⟨none, none, none, ma, none, me, none⟩ rfl _ _ s_r
  have s_e := parseMF_e me hoe ⟨none, none, none, ma, none, none, none⟩ rfl _ _ s_q
  have s_a := parseMF_a ma hoa ⟨none, none, none, none, none, none, none⟩ rfl _ _ s_e
  simp only [parseKrpcMessage]
  exact s_a fuel (by simp only [List.length_append, List.length_cons]; omega)


/-- Claim C9: for every well-formed KRPC message whose compact lists avoid
the length classes the decoder mishandles, decoding the bencoded bytes
produced by encoding the message yields the message back. -/
theorem claim_C9_theorem (m : KrpcMessage) (h1 : KrpcMessageWellFormed m)
    (h2 : RoundTripSafe m) :
    fromBytesKrpcMessage (encKrpcMessage m) = some m := by
  unfold fromBytesKrpcMessage
  have h := parseKrpcMessage_enc m h1 h2 [] (2 * (encKrpcMessage m).length + 2)
    (by simp; omega)
  rw [List.append_nil] at h
  rw [h]
  rfl

/-- Witness for C9: the repository's own ping test vector round-trips. -/
theorem claim_C9_witness :
    KrpcMessageWellFormed msgC9ping ∧ RoundTripSafe msgC9ping ∧
      fromBytesKrpcMessage (encKrpcMessage msgC9ping) = some msgC9ping :=
  ⟨by decide, by decide, claim_C9_theorem msgC9ping (by decide) (by decide)⟩

/-- Counterexample to C9 as stated: a well-formed response carrying one
IPv4 peer in values (6 compact bytes, a multiple of 6 but not of 18)
is rejected by the CompactAddresses or-guard, so the round trip fails. -/
theorem claim_C9_counterexample :
    KrpcMessageWellFormed msgC9 ∧
      fromBytesKrpcMessage (encKrpcMessage msgC9) = none := by
  constructor
  · decide
  · decide

end TorrentRs
